import Mathlib

/-!
Verification development for the parking-garage pricing and simulation engine
(`backend/engine/pricing.py`, `backend/engine/simulation.py`,
`backend/config/settings.py`, `backend/main.py`).

Embedding conventions:
* Python floats are modelled as exact rationals (`ℚ`); `round(x, n)` is
  modelled as rounding `x * 10^n` to the nearest integer.
* The zone strings "A"/"B"/"C" form a closed set (the layout generator never
  produces anything else and every configuration table is keyed exactly by
  them), so zones are embedded as a three-element enumeration.
* Randomness (`random.random()`, `random.choice`) and id generation are
  modelled by an oracle supplying arbitrary rational draws / choice indices /
  fresh ids, threaded by an explicit draw counter.
* The mutation of `GarageState` in place is modelled by explicit state passing.
-/

namespace ParkingGarage

/- Let decimal literals (`Rat.ofScientific`) evaluate inside `decide`. -/
attribute [local semireducible] Rat.ofScientific

/-- Rounding to `n` decimal places, the model of Python `round(x, n)`. -/
def pyRound (n : ℕ) (q : ℚ) : ℚ := (round (q * 10 ^ n) : ℚ) / 10 ^ n

/-- Truncation toward zero, the model of Python `int(x)` on a float. -/
def pyInt (q : ℚ) : ℤ := if 0 ≤ q then ⌊q⌋ else ⌈q⌉

/-- Fixed-point decimal rendering, the model of Python `f"{x:.df}"` formatting
(used only inside human-readable note strings). -/
def fmtFixed (q : ℚ) (d : ℕ) : String :=
  let scaled : ℤ := round (q * 10 ^ d)
  let s : ℕ := scaled.natAbs
  let sign : String := if scaled < 0 then "-" else ""
  if d = 0 then sign ++ toString s
  else
    let ip : ℕ := s / 10 ^ d
    let fp : ℕ := s % 10 ^ d
    let fpStr : String := toString fp
    let pad : String := ⟨List.replicate (d - fpStr.length) '0'⟩
    sign ++ toString ip ++ "." ++ pad ++ fpStr

/-- Auxiliary substring test on character lists. -/
def strContainsAux (hay pat : List Char) : Bool :=
  match hay with
  | [] => pat.isEmpty
  | _ :: t => pat.isPrefixOf hay || strContainsAux t pat

/-- `strContains hay pat` models the Python substring test `pat in hay`. -/
def strContains (hay pat : String) : Bool :=
  strContainsAux hay.data pat.data

/-- `backend/config/settings.py`, `SpotType`. -/
inductive SpotType where
  | STANDARD
  | EV
  | MOTORCYCLE
deriving DecidableEq, Repr

/-- `backend/config/settings.py`, `ReservationStatus`. -/
inductive ReservationStatus where
  | ACTIVE
  | COMPLETED
  | CANCELLED
deriving DecidableEq, Repr

/-- The closed set of zone labels "A"/"B"/"C" used by the layout generator
and all configuration tables. -/
inductive Zone where
  | A
  | B
  | C
deriving DecidableEq, Repr

/-- `backend/models/space.py`, `Space`.  The `distance_to_entrance` field is
carried but unused by every verified property (no pricing or simulation code
reads it). -/
structure Space where
  id : String
  type : SpotType
  zone : Zone
  row : ℕ
  col : ℕ
  distance_to_entrance : ℚ
deriving DecidableEq, Repr

/-- `backend/models/reservation.py`, `Reservation`. -/
structure Reservation where
  id : String
  space_id : String
  start_time : ℚ
  end_time : ℚ
  price_locked : ℚ
  total_cost : ℚ
  is_simulated : Bool
  status : ReservationStatus
deriving DecidableEq, Repr

/-- `backend/models/garage.py`, `EventLogEntry`. -/
structure EventLogEntry where
  timestamp : ℚ
  event_type : String
  details : String
deriving DecidableEq, Repr

/-- `backend/models/garage.py`, `GarageState`.  `held_space_ids` is carried on
the boundary (`main.py` syncs it in for clients); the engine receives held ids
as an explicit argument, mirroring the Python call sites. -/
structure GarageState where
  current_time : ℚ := 6
  is_playing : Bool := false
  playback_speed : ℚ := 1
  spaces : List Space := []
  reservations : List Reservation := []
  held_space_ids : List String := []
  simulation_enabled : Bool := false
  event_log : List EventLogEntry := []
deriving Repr

/-- `backend/config/settings.py`, `PricingConfig` (tables as total functions
over the closed enums). -/
structure PricingConfig where
  base_prices : SpotType → ℚ
  elasticity_by_type : SpotType → ℚ
  elasticity_by_zone : Zone → ℚ
  last_minute_elasticity_modifier : ℚ
  advance_elasticity_modifier : ℚ
  event_multiplier : ℚ
  price_floor : ℚ
  price_ceiling : ℚ
  occupancy_multipliers : List (ℚ × ℚ)
  location_multipliers : Zone → ℚ
  time_multipliers : List (ℚ × ℚ)

/-- `backend/config/settings.py`, `GarageConfig`. -/
structure GarageConfig where
  rows : ℕ := 10
  cols : ℕ := 10
  game_hour : ℤ := 19
  spot_hold_seconds : ℕ := 30
  sim_start_hour : ℤ := 6
  sim_end_hour : ℤ := 23
  sim_end_minute : ℤ := 59

/-- The default `pricing_config` instance from `settings.py`. -/
def pricing_config : PricingConfig where
  base_prices t := match t with
    | .STANDARD => 10
    | .EV => 15
    | .MOTORCYCLE => 5
  elasticity_by_type t := match t with
    | .STANDARD => 1
    | .EV => 0.7
    | .MOTORCYCLE => 1.1
  elasticity_by_zone z := match z with
    | .A => 0.9
    | .B => 1
    | .C => 1.3
  last_minute_elasticity_modifier := 0.7
  advance_elasticity_modifier := 1.2
  event_multiplier := 2
  price_floor := 5
  price_ceiling := 50
  occupancy_multipliers :=
    [(0, 1), (0.50, 1), (0.70, 1.5), (0.85, 2.5), (0.95, 3.5), (1, 4)]
  location_multipliers z := match z with
    | .A => 1.3
    | .B => 1
    | .C => 0.8
  time_multipliers :=
    [(13, 0.5), (8, 0.7), (4, 1), (2, 1.5), (1, 2), (0, 2.5), (-1, 1.5), (-4, 0.8)]

/-- The default `garage_config` instance from `settings.py`. -/
def garage_config : GarageConfig := {}

/-- `settings.py`, `DEMAND_FORECAST` (hour → demand factor), in key order. -/
def DEMAND_FORECAST : List (ℤ × ℚ) :=
  [(6, 0.05), (7, 0.08), (8, 0.10), (9, 0.12), (10, 0.15), (11, 0.20),
   (12, 0.25), (13, 0.30), (14, 0.40), (15, 0.50), (16, 0.60), (17, 0.75),
   (18, 0.90), (19, 1.00), (20, 0.70), (21, 0.40), (22, 0.20), (23, 0.10)]

/-- Dictionary lookup with default, the model of Python `dict.get(k, d)`. -/
def dictGet (tbl : List (ℤ × ℚ)) (k : ℤ) (dflt : ℚ) : ℚ :=
  match tbl.find? (fun p => p.1 = k) with
  | some p => p.2
  | none => dflt

/-- `pricing.py`, `PriceResult`. -/
structure PriceResult where
  final_price : ℚ
  base_price : ℚ
  context_price : ℚ
  occupancy_multiplier : ℚ
  time_multiplier : ℚ
  demand_multiplier : ℚ
  location_multiplier : ℚ
  event_multiplier : ℚ
  elasticity : ℚ
  elasticity_adjustment : ℚ
  optimization_note : String
deriving DecidableEq, Repr

/-- The scan over consecutive breakpoint pairs in `_interpolate`
(`pricing.py` lines 118-123): the first pair `(x0,y0),(x1,y1)` with
`x0 ≤ value ≤ x1` yields the linear interpolant. -/
def interpScan (value : ℚ) : List (ℚ × ℚ) → Option ℚ
  | (x0, y0) :: (x1, y1) :: rest =>
      if x0 ≤ value ∧ value ≤ x1 then
        some (y0 + (value - x0) / (x1 - x0) * (y1 - y0))
      else interpScan value ((x1, y1) :: rest)
  | _ => none

/-- The comparison Python `sorted(breakpoints, key=lambda bp: bp[0])` sorts by
(a stable sort on the first component). -/
def bpLE (a b : ℚ × ℚ) : Prop := a.1 ≤ b.1

instance : DecidableRel bpLE := fun a b => inferInstanceAs (Decidable (a.1 ≤ b.1))

/-- The body of `_interpolate` after the initial sort (`pricing.py` lines
103-125): clamp below the first breakpoint, clamp above the last, otherwise
scan for the bracketing pair (with the last output as the loop's fallback);
an empty breakpoint list yields the neutral multiplier 1. -/
def interpolateSorted (value : ℚ) : List (ℚ × ℚ) → ℚ
  | [] => 1
  | first :: rest =>
    if value ≤ first.1 then first.2
    else if ((first :: rest).getLast (List.cons_ne_nil first rest)).1 ≤ value then
      ((first :: rest).getLast (List.cons_ne_nil first rest)).2
    else
      (interpScan value (first :: rest)).getD
        ((first :: rest).getLast (List.cons_ne_nil first rest)).2

/-- `pricing.py`, `_interpolate`: piecewise-linear interpolation over
breakpoints, clamped to the first/last output, neutral `1.0` on an empty set.
The breakpoints are first sorted ascending by input (Python's stable
`sorted(..., key=lambda bp: bp[0])`). -/
def interpolate (value : ℚ) (breakpoints : List (ℚ × ℚ)) : ℚ :=
  interpolateSorted value (List.insertionSort bpLE breakpoints)

/-- `pricing.py`, `_get_occupancy_rate`: fraction of spaces with an ACTIVE
reservation whose `[start_time, end_time)` interval contains `current_time`. -/
def get_occupancy_rate (garage_state : GarageState) (current_time : ℚ) : ℚ :=
  let total_spaces := garage_state.spaces.length
  if total_spaces = 0 then 0
  else
    let occupied := garage_state.reservations.countP fun r =>
      r.status = ReservationStatus.ACTIVE ∧
        r.start_time ≤ current_time ∧ current_time < r.end_time
    (occupied : ℚ) / (total_spaces : ℚ)

/-- `pricing.py`, `_get_occupancy_multiplier`. -/
def get_occupancy_multiplier (garage_state : GarageState) (current_time : ℚ)
    (config : PricingConfig) : ℚ :=
  interpolate (get_occupancy_rate garage_state current_time) config.occupancy_multipliers

/-- `pricing.py`, `_get_time_multiplier`. -/
def get_time_multiplier (current_time : ℚ) (game_hour : ℤ) (config : PricingConfig) : ℚ :=
  interpolate ((game_hour : ℚ) - current_time) config.time_multipliers

/-- `pricing.py`, `_get_demand_multiplier`: interpolate the hourly demand
forecast (the key list in `DEMAND_FORECAST` is already sorted ascending). -/
def get_demand_multiplier (current_time : ℚ) : ℚ :=
  interpolate current_time (DEMAND_FORECAST.map fun p => ((p.1 : ℚ), p.2))

/-- `pricing.py`, `_get_elasticity`: type elasticity × zone modifier, with a
timing modifier applied only when a booking lead time is supplied. -/
def get_elasticity (space : Space) (current_time : ℚ) (game_hour : ℤ)
    (booking_lead_time : Option ℚ) (config : PricingConfig) : ℚ :=
  let type_elasticity := config.elasticity_by_type space.type
  let zone_modifier := config.elasticity_by_zone space.zone
  let elasticity := type_elasticity * zone_modifier
  match booking_lead_time with
  | none => elasticity
  | some _ =>
    let hours_before_game := (game_hour : ℚ) - current_time
    if hours_before_game < 1 then elasticity * config.last_minute_elasticity_modifier
    else if 4 < hours_before_game then elasticity * config.advance_elasticity_modifier
    else elasticity

/-- The elasticity branch of `calculate_price` (`pricing.py` lines 65-75):
returns the raw adjustment factor together with the optimization note. -/
def elasticityAdjNote (elasticity : ℚ) : ℚ × String :=
  if elasticity < 1 then
    let elasticity_adj := 1 + (1 - elasticity)
    (elasticity_adj,
      "Inelastic segment (e=" ++ fmtFixed elasticity 2 ++ "): price pushed up "
        ++ fmtFixed ((elasticity_adj - 1) * 100) 0 ++ "%")
  else if 1 < elasticity then
    let elasticity_adj := 1 / elasticity
    (elasticity_adj,
      "Elastic segment (e=" ++ fmtFixed elasticity 2 ++ "): price reduced "
        ++ fmtFixed ((1 - elasticity_adj) * 100) 0 ++ "%")
  else (1, "Unit elastic (e=1.00): no adjustment")

/-- `pricing.py`, `calculate_price`: three-layer pricing (base price, context
multipliers, elasticity adjustment) with floor/ceiling guardrails.  `none` for
the optional `config`/`garage_cfg` arguments selects the module defaults, as
in the Python signature. -/
def calculate_price (space : Space) (current_time : ℚ) (garage_state : GarageState)
    (booking_lead_time : Option ℚ := none) (config? : Option PricingConfig := none)
    (garage_cfg? : Option GarageConfig := none) : PriceResult :=
  let config := config?.getD pricing_config
  let garage_cfg := garage_cfg?.getD garage_config
  let base_price := config.base_prices space.type
  let occ_mult := get_occupancy_multiplier garage_state current_time config
  let time_mult := get_time_multiplier current_time garage_cfg.game_hour config
  let demand_mult := get_demand_multiplier current_time
  let location_mult := config.location_multipliers space.zone
  let event_mult := config.event_multiplier
  let context_price := base_price * occ_mult * time_mult * demand_mult * location_mult * event_mult
  let elasticity :=
    get_elasticity space current_time garage_cfg.game_hour booking_lead_time config
  let adjNote := elasticityAdjNote elasticity
  let final_price_raw := context_price * adjNote.1
  let final_price := max config.price_floor (min config.price_ceiling final_price_raw)
  { final_price := pyRound 2 final_price
    base_price := base_price
    context_price := pyRound 2 context_price
    occupancy_multiplier := pyRound 4 occ_mult
    time_multiplier := pyRound 4 time_mult
    demand_multiplier := pyRound 4 demand_mult
    location_multiplier := location_mult
    event_multiplier := event_mult
    elasticity := pyRound 4 elasticity
    elasticity_adjustment := pyRound 4 adjNote.1
    optimization_note := adjNote.2 }

/-- `SpotType.value` (the `str` payload of the Python enum). -/
def SpotType.value : SpotType → String
  | .STANDARD => "STANDARD"
  | .EV => "EV"
  | .MOTORCYCLE => "MOTORCYCLE"

/-- The pseudo-random source and id generator of `simulation.py`, modelled as
an oracle of arbitrary draws indexed by an explicit counter: `unif k` models
the `k`-th `random.random()` draw, `choice` supplies the index drawn by
`random.choice`, `fresh` supplies uuid-based id fragments. -/
structure Oracle where
  unif : ℕ → ℚ
  choice : ℕ → ℕ
  fresh : ℕ → String

/-- `simulation.py` module constants. -/
def BASE_BOOKING_RATE : ℚ := 0.65

def EARLY_DEPARTURE_RATE : ℚ := 0.02

def POST_GAME_DEPARTURE_RATE : ℚ := 0.15

/-- `simulation.py`, `DURATION_WEIGHTS` (hours → relative weight), in key order. -/
def DURATION_WEIGHTS : List (ℤ × ℚ) := [(1, 0.10), (2, 0.20), (3, 0.35), (4, 0.35)]

def MAX_EVENT_LOG_SIZE : ℕ := 50

/-- `simulation.py`, `TARGET_OCCUPANCY_CURVE` (hour → target occupancy). -/
def TARGET_OCCUPANCY_CURVE : List (ℤ × ℚ) :=
  [(6, 0.02), (7, 0.05), (8, 0.08), (9, 0.12), (10, 0.18), (11, 0.25),
   (12, 0.32), (13, 0.40), (14, 0.50), (15, 0.60), (16, 0.72), (17, 0.82),
   (18, 0.90), (19, 0.95), (20, 0.95), (21, 0.92), (22, 0.70), (23, 0.30)]

def GAME_START_HOUR : ℚ := 19

def GAME_END_HOUR : ℚ := 22

/-- `simulation.py`, `_get_available_spaces`: spaces with no ACTIVE reservation
covering the current time and not currently held. -/
def get_available_spaces (garage_state : GarageState) (held_space_ids : List String) :
    List Space :=
  let current_time := garage_state.current_time
  let occupied_ids := (garage_state.reservations.filter fun r =>
      r.status = ReservationStatus.ACTIVE ∧
        r.start_time ≤ current_time ∧ current_time < r.end_time).map (·.space_id)
  garage_state.spaces.filter fun space =>
    space.id ∉ occupied_ids ∧ space.id ∉ held_space_ids

/-- `simulation.py`, `_get_demand_factor`: fractional-hour interpolation of the
demand forecast, defaulting to 0.1 outside the table. -/
def get_demand_factor (current_time : ℚ) : ℚ :=
  let hour := pyInt current_time
  let next_hour := hour + 1
  let fraction := current_time - (hour : ℚ)
  let demand_now := dictGet DEMAND_FORECAST hour 0.1
  let demand_next := dictGet DEMAND_FORECAST next_hour 0.1
  demand_now + fraction * (demand_next - demand_now)

/-- `simulation.py`, `_get_target_occupancy`. -/
def get_target_occupancy (current_time : ℚ) : ℚ :=
  let hour := pyInt current_time
  let next_hour := hour + 1
  let fraction := current_time - (hour : ℚ)
  let target_now := dictGet TARGET_OCCUPANCY_CURVE hour 0.1
  let target_next := dictGet TARGET_OCCUPANCY_CURVE next_hour 0.1
  target_now + fraction * (target_next - target_now)

/-- The cumulative-weight walk shared by `_select_weighted_space` and
`_select_duration`: first element whose cumulative weight reaches the draw. -/
def cumulativePick {α : Type} (r : ℚ) : List (α × ℚ) → ℚ → Option α
  | [], _ => none
  | (a, w) :: rest, cumulative =>
    if r ≤ cumulative + w then some a else cumulativePick r rest (cumulative + w)

/-- The weighted-selection tail of `_select_weighted_space` (`simulation.py`
lines 199-212): zero total weight falls back to `random.choice`, otherwise a
uniform draw against the cumulative distribution, with the last space as the
final fallback. -/
def weightedChoice (spaces : List Space) (weights : List ℚ) (o : Oracle) (k : ℕ) :
    Option Space × ℕ :=
  if weights.sum = 0 then (spaces.get? (o.choice k % spaces.length), k + 1)
  else
    (match cumulativePick (o.unif k * weights.sum) (spaces.zip weights) 0 with
     | some s => some s
     | none => spaces.getLast?, k + 1)

/-- `simulation.py`, `_select_weighted_space`: inverse-price weighting over the
available spaces. -/
def select_weighted_space (available_spaces : List Space) (garage_state : GarageState)
    (o : Oracle) (k : ℕ) : Option Space × ℕ :=
  if available_spaces = [] then (none, k)
  else
    let weights := available_spaces.map fun space =>
      1 / ((calculate_price space garage_state.current_time garage_state).final_price + 0.01)
    weightedChoice available_spaces weights o k

/-- `simulation.py`, `_select_duration`: weighted duration choice among the
durations not exceeding `min 4 ⌊sim_end_time - current_time⌋`, with a fallback
of 1 hour when that bound is below 1. -/
def validDurationWeights (max_duration : ℤ) : List (ℤ × ℚ) :=
  DURATION_WEIGHTS.filter fun p => p.1 ≤ max_duration

def select_duration (current_time sim_end_time : ℚ) (o : Oracle) (k : ℕ) : ℤ × ℕ :=
  if min 4 (pyInt (sim_end_time - current_time)) < 1 then (1, k)
  else
    (match cumulativePick
        (o.unif k *
          ((validDurationWeights (min 4 (pyInt (sim_end_time - current_time)))).map
            (·.2)).sum)
        (validDurationWeights (min 4 (pyInt (sim_end_time - current_time)))) 0 with
     | some d => d
     | none =>
      (((validDurationWeights (min 4 (pyInt (sim_end_time - current_time)))).getLast?).map
        (·.1)).getD 0, k + 1)

/-- The append-then-trim step shared by `_add_event` (`simulation.py`, cap 50)
and the manual-booking handler (`main.py`, cap 100): append, then keep the
last `cap` entries when the cap is exceeded. -/
def trimAppend (cap : ℕ) (log : List EventLogEntry) (e : EventLogEntry) :
    List EventLogEntry :=
  let log := log ++ [e]
  if cap < log.length then log.drop (log.length - cap) else log

/-- `simulation.py`, `_add_event`. -/
def add_event (garage_state : GarageState) (event_type details : String) : GarageState :=
  { garage_state with
    event_log := trimAppend MAX_EVENT_LOG_SIZE garage_state.event_log
      ⟨garage_state.current_time, event_type, details⟩ }

/-- The reservation loop of `run_auto_clearing` (`simulation.py` lines
454-489): returns the updated reservation list, the cleared space ids, the
event-log entries generated (in order), and the advanced draw counter. -/
def clearLoop (current_time departure_rate : ℚ) (o : Oracle) :
    List Reservation → ℕ → List Reservation × List String × List EventLogEntry × ℕ
  | [], k => ([], [], [], k)
  | r :: rest, k =>
    if r.status ≠ ReservationStatus.ACTIVE then
      let (rs, cleared, evs, kk) := clearLoop current_time departure_rate o rest k
      (r :: rs, cleared, evs, kk)
    else if r.end_time ≤ current_time then
      let r1 := { r with status := ReservationStatus.COMPLETED }
      let ev : EventLogEntry :=
        ⟨current_time, "departure", "Reservation completed for " ++ r.space_id⟩
      let (rs, cleared, evs, kk) := clearLoop current_time departure_rate o rest k
      (r1 :: rs, r.space_id :: cleared, ev :: evs, kk)
    else if r.is_simulated then
      if o.unif k < departure_rate then
        let r1 := { r with status := ReservationStatus.COMPLETED }
        let remaining := r.end_time - current_time
        let ev : EventLogEntry :=
          if GAME_END_HOUR ≤ current_time then
            ⟨current_time, "post_game_departure", "Post-game departure from " ++ r.space_id⟩
          else
            ⟨current_time, "early_departure",
              "Early departure from " ++ r.space_id ++ " ("
                ++ fmtFixed remaining 1 ++ "hr remaining)"⟩
        let (rs, cleared, evs, kk) := clearLoop current_time departure_rate o rest (k + 1)
        (r1 :: rs, r.space_id :: cleared, ev :: evs, kk)
      else
        let (rs, cleared, evs, kk) := clearLoop current_time departure_rate o rest (k + 1)
        (r :: rs, cleared, evs, kk)
    else
      let (rs, cleared, evs, kk) := clearLoop current_time departure_rate o rest k
      (r :: rs, cleared, evs, kk)

/-- The time-of-day departure rate of `run_auto_clearing` (`simulation.py`
lines 444-452). -/
def clearingDepartureRate (current_time : ℚ) : ℚ :=
  if GAME_END_HOUR ≤ current_time then POST_GAME_DEPARTURE_RATE
  else if GAME_START_HOUR ≤ current_time ∧ current_time < GAME_END_HOUR then
    EARLY_DEPARTURE_RATE * 0.3
  else EARLY_DEPARTURE_RATE

/-- `simulation.py`, `run_auto_clearing`: natural expiry to COMPLETED plus
stochastic early/post-game departures for simulated reservations only. -/
def run_auto_clearing (garage_state : GarageState) (o : Oracle) (k : ℕ) :
    GarageState × List String × ℕ :=
  let current_time := garage_state.current_time
  let departure_rate := clearingDepartureRate current_time
  let (rs, cleared, evs, kk) :=
    clearLoop current_time departure_rate o garage_state.reservations k
  ({ garage_state with
      reservations := rs
      event_log := evs.foldl (trimAppend MAX_EVENT_LOG_SIZE) garage_state.event_log },
    cleared, kk)

/-- The per-attempt booking probability of `run_auto_booking`
(`simulation.py` lines 346-370): base rate times demand, boosted when behind
the target occupancy, damped when ahead, pinned high (or damped) during the
game window, and capped at 0.98. -/
def bookingProbability (ct current_occupancy occupancy_gap demand_factor : ℚ) : ℚ :=
  let p0 := BASE_BOOKING_RATE * demand_factor
  let p1 :=
    if 0 < occupancy_gap then p0 * (1 + occupancy_gap * 5)
    else if occupancy_gap < -0.05 then p0 * 0.1
    else p0
  let p2 :=
    if GAME_START_HOUR ≤ ct ∧ ct < GAME_END_HOUR then
      if current_occupancy < 0.90 then p1 * 2.5 else p1 * 0.15
    else p1
  min p2 0.98

/-- The duration choice of `run_auto_booking` (`simulation.py` lines 388-399):
near or during the game window the selected duration is pushed up to at least
`int(time_until_game_end)` hours (and still capped at 4); otherwise plain
`_select_duration`. -/
def chooseBookingDuration (ct sim_end : ℚ) (o : Oracle) (k : ℕ) : ℤ × ℕ :=
  if GAME_START_HOUR - 2 ≤ ct ∧ ct < GAME_END_HOUR then
    if 0 < GAME_END_HOUR - ct then
      (min 4 (max (max 1 (pyInt (GAME_END_HOUR - ct))) (select_duration ct sim_end o k).1),
        (select_duration ct sim_end o k).2)
    else select_duration ct sim_end o k
  else select_duration ct sim_end o k

/-- The reservation record created by `run_auto_booking`
(`simulation.py` lines 402-411). -/
def mkSimReservation (ct : ℚ) (space : Space) (price_result : PriceResult)
    (duration : ℤ) (rid : String) : Reservation :=
  { id := "sim-" ++ rid
    space_id := space.id
    start_time := ct
    end_time := ct + (duration : ℚ)
    price_locked := price_result.final_price
    total_cost := pyRound 2 (price_result.final_price * (duration : ℚ))
    is_simulated := true
    status := ReservationStatus.ACTIVE }

/-- The burst loop of `run_auto_booking` (`simulation.py` lines 338-423),
with the remaining attempt count as fuel. -/
def bookingAttempts (ct sim_end : ℚ) (total_spaces : ℕ) (target_occupancy demand_factor : ℚ)
    (held : List String) (o : Oracle) :
    ℕ → GarageState → ℕ → List Reservation → List Reservation × GarageState × ℕ
  | 0, gs, k, acc => (acc, gs, k)
  | fuel + 1, gs, k, acc =>
    if get_available_spaces gs held = [] then (acc, gs, k)
    else
      if bookingProbability ct
          (1 - ((get_available_spaces gs held).length : ℚ) / (total_spaces : ℚ))
          (target_occupancy -
            (1 - ((get_available_spaces gs held).length : ℚ) / (total_spaces : ℚ)))
          demand_factor < o.unif k then
        bookingAttempts ct sim_end total_spaces target_occupancy demand_factor held o
          fuel gs (k + 1) acc
      else
        match select_weighted_space (get_available_spaces gs held) gs o (k + 1) with
        | (none, k2) =>
          bookingAttempts ct sim_end total_spaces target_occupancy demand_factor held o
            fuel gs k2 acc
        | (some space, k2) =>
          let dk := chooseBookingDuration ct sim_end o k2
          let reservation :=
            mkSimReservation ct space (calculate_price space ct gs) dk.1 (o.fresh dk.2)
          let gs1 := { gs with reservations := gs.reservations ++ [reservation] }
          let gs2 := add_event gs1 "sim_booking"
            ("Auto-booked " ++ space.id ++ " (" ++ space.type.value ++ ") for "
              ++ toString dk.1 ++ "hr at $"
              ++ fmtFixed (calculate_price space ct gs).final_price 2 ++ "/hr")
          bookingAttempts ct sim_end total_spaces target_occupancy demand_factor held o
            fuel gs2 dk.2 (acc ++ [reservation])

/-- The end-of-day boundary `sim_end_hour + sim_end_minute / 60` computed from
the default `garage_config` in both `run_auto_booking` (`simulation.py` line
306) and the tick loop (`main.py`): `23 + 59/60`. -/
def simEndTime : ℚ := (garage_config.sim_end_hour : ℚ) + (garage_config.sim_end_minute : ℚ) / 60

/-- `simulation.py`, `run_auto_booking`: demand/target-driven burst booking.
Returns the new reservations, the updated state and the advanced counter. -/
def run_auto_booking (garage_state : GarageState) (held_space_ids : List String)
    (o : Oracle) (k : ℕ) : List Reservation × GarageState × ℕ :=
  let current_time := garage_state.current_time
  let total_spaces := garage_state.spaces.length
  let sim_end := simEndTime
  let available_spaces := get_available_spaces garage_state held_space_ids
  if available_spaces = [] then ([], garage_state, k)
  else
    let current_occupancy := 1 - (available_spaces.length : ℚ) / (total_spaces : ℚ)
    let target_occupancy := get_target_occupancy current_time
    let occupancy_gap := target_occupancy - current_occupancy
    let max_bookings_this_tick : ℕ :=
      if 0.20 < occupancy_gap then 5
      else if 0.10 < occupancy_gap then 3
      else if 0.05 < occupancy_gap then 2
      else 1
    let demand_factor := get_demand_factor current_time
    bookingAttempts current_time sim_end total_spaces target_occupancy demand_factor
      held_space_ids o max_bookings_this_tick garage_state k []

/-- `simulation.py`, `run_simulation_tick`: auto-clearing first, then
auto-booking.  Returns (state, new_bookings, cleared_spaces, counter). -/
def run_simulation_tick (garage_state : GarageState) (held_space_ids : List String)
    (o : Oracle) (k : ℕ) : GarageState × List Reservation × List String × ℕ :=
  let (gs1, cleared_spaces, k1) := run_auto_clearing garage_state o k
  let (new_bookings, gs2, k2) := run_auto_booking gs1 held_space_ids o k1
  (gs2, new_bookings, cleared_spaces, k2)

/-- `main.py`, a spot hold (`spot_holds` map entry): holder, price locked at
hold time, wall-clock expiry. -/
structure Hold where
  ws_id : String
  price_result : PriceResult
  hold_expires_at : ℚ

/-- The hold created by `main.py`, `handle_select_spot` once validation has
passed: price computed at hold time with the lead time to the game. -/
def handle_select_spot_hold (garage_state : GarageState) (space : Space)
    (ws_id : String) (hold_expires_at : ℚ) : Hold :=
  let booking_lead_time := (garage_config.game_hour : ℚ) - garage_state.current_time
  { ws_id := ws_id
    price_result :=
      calculate_price space garage_state.current_time garage_state (some booking_lead_time)
    hold_expires_at := hold_expires_at }

/-- The event-log cap literal (100) in `main.py`, `handle_book_spot`. -/
def MAIN_EVENT_LOG_CAP : ℕ := 100

/-- The state-mutating core of `main.py`, `handle_book_spot` (lines 255-314):
duration validation, reservation creation at the hold's locked price, and the
manual-path event-log append (cap 100).  The wall-clock hold-expiry and
ownership checks are boundary concerns preceding any state write; `none`
models every rejection path (no reservation is created there). -/
def handle_book_spot_core (garage_state : GarageState) (space_id : String) (hold : Hold)
    (duration_hours : ℚ) (rid : String) : Option (GarageState × Reservation) :=
  if duration_hours < 1 ∨ 4 < duration_hours then none
  else
    let price_locked := hold.price_result.final_price
    let total_cost := pyRound 2 (price_locked * duration_hours)
    let reservation : Reservation :=
      { id := rid
        space_id := space_id
        start_time := garage_state.current_time
        end_time := garage_state.current_time + duration_hours
        price_locked := price_locked
        total_cost := total_cost
        is_simulated := false
        status := ReservationStatus.ACTIVE }
    let event : EventLogEntry :=
      ⟨garage_state.current_time, "booking",
        "Manual booking: " ++ space_id ++ " at $" ++ fmtFixed price_locked 2 ++ "/hr"⟩
    some
      ({ garage_state with
          reservations := garage_state.reservations ++ [reservation]
          event_log := trimAppend MAIN_EVENT_LOG_CAP garage_state.event_log event },
        reservation)

/-- Garage states reachable by the simulation loop: an initialized garage (no
reservations yet — what `initialize_garage` produces), forward time
advancement (the tick loop and `handle_set_time` never move a running
simulation backwards past bookings made at a later time; the tick loop only
increases time), and simulation ticks with arbitrary held ids and draws. -/
inductive SimReachable : GarageState → Prop where
  | start (gs : GarageState) : gs.reservations = [] → SimReachable gs
  | advance (gs : GarageState) (t : ℚ) : SimReachable gs → gs.current_time ≤ t →
      SimReachable { gs with current_time := t }
  | tick (gs : GarageState) (held : List String) (o : Oracle) (k : ℕ) :
      SimReachable gs → SimReachable (run_simulation_tick gs held o k).1

/-- Reference piecewise-linear evaluator: on breakpoint lists that are already
strictly ascending in their inputs, `interpolate` agrees with this structurally
recursive form (proved below), which the interpolation proofs induct on. -/
def pwl (value : ℚ) : List (ℚ × ℚ) → ℚ
  | [] => 1
  | [p] => p.2
  | p0 :: p1 :: rest =>
    if value ≤ p0.1 then p0.2
    else if value ≤ p1.1 then
      p0.2 + (value - p0.1) / (p1.1 - p0.1) * (p1.2 - p0.2)
    else pwl value (p1 :: rest)

/-- Breakpoint inputs strictly ascending. -/
def StrictAsc (l : List (ℚ × ℚ)) : Prop := l.Pairwise fun a b => a.1 < b.1

/-- Breakpoint outputs non-decreasing. -/
def MonoOut (l : List (ℚ × ℚ)) : Prop := l.Pairwise fun a b => a.2 ≤ b.2

instance (l : List (ℚ × ℚ)) : Decidable (StrictAsc l) :=
  inferInstanceAs (Decidable (l.Pairwise _))

instance (l : List (ℚ × ℚ)) : Decidable (MonoOut l) :=
  inferInstanceAs (Decidable (l.Pairwise _))

/-- A concrete oracle (all draws 0) used to instantiate universally
quantified randomness in witnesses. -/
def oracle0 : Oracle := ⟨fun _ => 0, fun _ => 0, fun _ => "00000000"⟩

/-- Sample STANDARD/zone-B space (as produced by the layout generator for
row 5, col 5). -/
def spaceStdB : Space := ⟨"R5C5", .STANDARD, .B, 5, 5, 5.5⟩

/-- Sample EV/zone-A space (row 0, col 0). -/
def spaceEvA : Space := ⟨"R0C0", .EV, .A, 0, 0, 5⟩

/-- Sample two-space garage at 11:00 with no reservations. -/
def gsTwoSpaces : GarageState := { current_time := 11, spaces := [spaceStdB, spaceEvA] }

/-- Sample one-space garage at 23:00 with no reservations (the last hour of
the simulated day). -/
def gsOneSpace23 : GarageState := { current_time := 23, spaces := [spaceStdB] }

/-- Sample simulated ACTIVE reservation on `spaceStdB`, 10:00-12:00. -/
def sampleActive : Reservation := ⟨"r1", "R5C5", 10, 12, 10, 20, true, .ACTIVE⟩

/-- Sample MOTORCYCLE/zone-C space (row 9, col 9). -/
def spaceMotoC : Space := ⟨"R9C9", .MOTORCYCLE, .C, 9, 9, 10⟩

/-- Sample garage with no spaces at all. -/
def gsNoSpaces : GarageState := { current_time := 10 }

/-- Sample one-space garage at 06:00 with no reservations. -/
def gsOneSpace6 : GarageState := { current_time := 6, spaces := [spaceStdB] }

/-- Sample simulated reservation expired by 09:00. -/
def sampleExpired : Reservation := ⟨"r1", "R0C0", 6, 8, 10, 20, true, .ACTIVE⟩

/-- Sample manual reservation still running at 09:00. -/
def sampleManual : Reservation := ⟨"r2", "R0C1", 6, 10, 10, 40, false, .ACTIVE⟩

/-- Sample already-COMPLETED reservation. -/
def sampleDone : Reservation := ⟨"r3", "R0C2", 6, 8, 10, 20, true, .COMPLETED⟩

/-- Sample garage at 09:00 holding the three reservations above. -/
def gsClearSample : GarageState :=
  { current_time := 9, spaces := [spaceStdB],
    reservations := [sampleExpired, sampleManual, sampleDone] }

/-- Sample event-log entry. -/
def sampleEvent : EventLogEntry := ⟨6, "booking", "sample"⟩

/-- One way a reservation may change across `run_auto_clearing`: untouched, or
an ACTIVE reservation transitioned to COMPLETED; expiry forces the transition,
a live manual reservation is never touched, and a non-ACTIVE reservation is
never touched. -/
def clearRel (ct : ℚ) (r r1 : Reservation) : Prop :=
  (r1 = r ∨ (r.status = ReservationStatus.ACTIVE ∧
    r1 = { r with status := ReservationStatus.COMPLETED })) ∧
  (r.status = ReservationStatus.ACTIVE ∧ r.end_time ≤ ct →
    r1 = { r with status := ReservationStatus.COMPLETED }) ∧
  (r.status = ReservationStatus.ACTIVE ∧ r.is_simulated = false ∧ ct < r.end_time →
    r1 = r) ∧
  (r.status ≠ ReservationStatus.ACTIVE → r1 = r)

/-- The no-double-booking invariant: for every space id and every instant, at
most one ACTIVE reservation for that space covers the instant. -/
def NoDoubleBooking (gs : GarageState) : Prop :=
  ∀ (sid : String) (t : ℚ),
    (gs.reservations.filter fun r =>
      r.status = ReservationStatus.ACTIVE ∧ r.space_id = sid ∧
        r.start_time ≤ t ∧ t < r.end_time).length ≤ 1

/-- Auxiliary invariant: every reservation starts no later than the current
simulated time (bookings are always created at the current time and time only
moves forward). -/
def StartsBeforeNow (gs : GarageState) : Prop :=
  ∀ r ∈ gs.reservations, r.start_time ≤ gs.current_time

/-- What is true of every reservation the auto-booking path creates, at
creation: ACTIVE, simulated, started at the tick's current time `ct`, with an
integer duration of 1-4 hours, booked on one of the garage's spaces, priced by
`calculate_price` against the garage state at selection time (a state at the
same current time over the same spaces), and costed at the locked price times
the duration, rounded to cents. -/
def SimBookingSpec (S : List Space) (ct : ℚ) (r : Reservation) : Prop :=
  r.status = ReservationStatus.ACTIVE ∧ r.is_simulated = true ∧ r.start_time = ct ∧
  ∃ (d : ℤ) (space : Space) (gsSel : GarageState),
    1 ≤ d ∧ d ≤ 4 ∧ r.end_time = ct + (d : ℚ) ∧
    space ∈ S ∧ r.space_id = space.id ∧
    gsSel.current_time = ct ∧ gsSel.spaces = S ∧
    r.price_locked = (calculate_price space ct gsSel).final_price ∧
    r.total_cost = pyRound 2 (r.price_locked * (d : ℚ))

/-- The inductive invariant for the no-double-booking proof: the booking
invariant itself plus the auxiliary fact that no reservation starts in the
future. -/
def GoodState (gs : GarageState) : Prop :=
  NoDoubleBooking gs ∧ StartsBeforeNow gs

/-- One event-log append as performed by the two code paths: `_add_event`
(`simulation.py`, cap `MAX_EVENT_LOG_SIZE = 50`) when the flag is true, the
manual-booking handler (`main.py`, cap `MAIN_EVENT_LOG_CAP = 100`) when
false. -/
def logStep (log : List EventLogEntry) (op : Bool × EventLogEntry) :
    List EventLogEntry :=
  if op.1 then trimAppend MAX_EVENT_LOG_SIZE log op.2
  else trimAppend MAIN_EVENT_LOG_CAP log op.2

section InterpolationTheory

lemma mem_of_getLast?_eq {α : Type} {l : List α} {a : α} (h : l.getLast? = some a) :
    a ∈ l := by
  obtain ⟨hne, rfl⟩ := List.mem_getLast?_eq_getLast (l := l) (x := a) h
  exact List.getLast_mem hne

lemma StrictAsc.sorted {l : List (ℚ × ℚ)} (h : StrictAsc l) : l.Sorted bpLE :=
  h.imp fun hab => le_of_lt hab

lemma sort_eq_of_strictAsc {l : List (ℚ × ℚ)} (h : StrictAsc l) :
    List.insertionSort bpLE l = l :=
  h.sorted.insertionSort_eq

lemma StrictAsc.head_lt {p : ℚ × ℚ} {l : List (ℚ × ℚ)} (h : StrictAsc (p :: l)) :
    ∀ q ∈ l, p.1 < q.1 := (List.pairwise_cons.mp h).1

lemma StrictAsc.tailAsc {p : ℚ × ℚ} {l : List (ℚ × ℚ)} (h : StrictAsc (p :: l)) :
    StrictAsc l := (List.pairwise_cons.mp h).2

lemma MonoOut.head_le {p : ℚ × ℚ} {l : List (ℚ × ℚ)} (h : MonoOut (p :: l)) :
    ∀ q ∈ l, p.2 ≤ q.2 := (List.pairwise_cons.mp h).1

lemma MonoOut.tailOut {p : ℚ × ℚ} {l : List (ℚ × ℚ)} (h : MonoOut (p :: l)) :
    MonoOut l := (List.pairwise_cons.mp h).2

/-- Lower bound: `pwl` stays above any common lower bound of the outputs. -/
lemma le_pwl {v m : ℚ} :
    ∀ {l : List (ℚ × ℚ)}, StrictAsc l → (∀ p ∈ l, m ≤ p.2) → l ≠ [] → m ≤ pwl v l := by
  intro l
  induction l with
  | nil => intro _ _ h; exact absurd rfl h
  | cons p0 tl ih =>
    intro hs hm _
    cases tl with
    | nil => simpa [pwl] using hm p0 (by simp)
    | cons p1 rest =>
      have hx : p0.1 < p1.1 := hs.head_lt p1 (by simp)
      have hy0 : m ≤ p0.2 := hm p0 (by simp)
      have hy1 : m ≤ p1.2 := hm p1 (by simp)
      rw [pwl]
      split_ifs with h0 h1
      · exact hy0
      · have hd : 0 < p1.1 - p0.1 := by linarith
        have ht0 : 0 ≤ (v - p0.1) / (p1.1 - p0.1) :=
          div_nonneg (by linarith) (le_of_lt hd)
        have ht1 : (v - p0.1) / (p1.1 - p0.1) ≤ 1 := (div_le_one hd).mpr (by linarith)
        nlinarith [mul_nonneg (sub_nonneg.mpr ht1) (sub_nonneg.mpr hy0),
          mul_nonneg ht0 (sub_nonneg.mpr hy1)]
      · exact ih hs.tailAsc (fun p hp => hm p (List.mem_cons_of_mem _ hp)) (by simp)

/-- Upper bound: `pwl` stays below any common upper bound of the outputs. -/
lemma pwl_le {v m : ℚ} :
    ∀ {l : List (ℚ × ℚ)}, StrictAsc l → (∀ p ∈ l, p.2 ≤ m) → l ≠ [] → pwl v l ≤ m := by
  intro l
  induction l with
  | nil => intro _ _ h; exact absurd rfl h
  | cons p0 tl ih =>
    intro hs hm _
    cases tl with
    | nil => simpa [pwl] using hm p0 (by simp)
    | cons p1 rest =>
      have hx : p0.1 < p1.1 := hs.head_lt p1 (by simp)
      have hy0 : p0.2 ≤ m := hm p0 (by simp)
      have hy1 : p1.2 ≤ m := hm p1 (by simp)
      rw [pwl]
      split_ifs with h0 h1
      · exact hy0
      · have hd : 0 < p1.1 - p0.1 := by linarith
        have ht0 : 0 ≤ (v - p0.1) / (p1.1 - p0.1) :=
          div_nonneg (by linarith) (le_of_lt hd)
        have ht1 : (v - p0.1) / (p1.1 - p0.1) ≤ 1 := (div_le_one hd).mpr (by linarith)
        nlinarith [mul_nonneg (sub_nonneg.mpr ht1) (sub_nonneg.mpr hy0),
          mul_nonneg ht0 (sub_nonneg.mpr hy1)]
      · exact ih hs.tailAsc (fun p hp => hm p (List.mem_cons_of_mem _ hp)) (by simp)

/-- Monotonicity of `pwl` in the value, for ascending inputs and
non-decreasing outputs. -/
lemma pwl_mono {a b : ℚ} (hab : a ≤ b) :
    ∀ {l : List (ℚ × ℚ)}, StrictAsc l → MonoOut l → pwl a l ≤ pwl b l := by
  intro l
  induction l with
  | nil => simp [pwl]
  | cons p0 tl ih =>
    intro hs hmo
    cases tl with
    | nil => simp [pwl]
    | cons p1 rest =>
      have hx : p0.1 < p1.1 := hs.head_lt p1 (by simp)
      have hy01 : p0.2 ≤ p1.2 := hmo.head_le p1 (by simp)
      have hd : 0 < p1.1 - p0.1 := by linarith
      have htail1 : ∀ p ∈ p1 :: rest, p1.2 ≤ p.2 := by
        intro p hp
        rcases List.mem_cons.mp hp with h | h
        · exact le_of_eq (congrArg Prod.snd h).symm
        · exact hmo.tailOut.head_le p h
      have htail0 : ∀ p ∈ p1 :: rest, p0.2 ≤ p.2 :=
        fun p hp => le_trans hy01 (htail1 p hp)
      rw [pwl, pwl]
      by_cases ha0 : a ≤ p0.1
      · rw [if_pos ha0]
        by_cases hb0 : b ≤ p0.1
        · rw [if_pos hb0]
        · rw [if_neg hb0]
          by_cases hb1 : b ≤ p1.1
          · rw [if_pos hb1]
            have ht0 : 0 ≤ (b - p0.1) / (p1.1 - p0.1) :=
              div_nonneg (by linarith) (le_of_lt hd)
            nlinarith [mul_nonneg ht0 (sub_nonneg.mpr hy01)]
          · rw [if_neg hb1]
            exact le_trans hy01 (le_pwl hs.tailAsc htail1 (by simp))
      · rw [if_neg ha0]
        have hb0 : ¬b ≤ p0.1 := fun h => ha0 (le_trans hab h)
        rw [if_neg hb0]
        by_cases ha1 : a ≤ p1.1
        · rw [if_pos ha1]
          by_cases hb1 : b ≤ p1.1
          · rw [if_pos hb1]
            have ht : (a - p0.1) / (p1.1 - p0.1) ≤ (b - p0.1) / (p1.1 - p0.1) :=
              (div_le_div_iff_of_pos_right hd).mpr (by linarith)
            nlinarith [mul_nonneg (sub_nonneg.mpr ht) (sub_nonneg.mpr hy01)]
          · rw [if_neg hb1]
            have ht1 : (a - p0.1) / (p1.1 - p0.1) ≤ 1 := (div_le_one hd).mpr (by linarith)
            have hstep : p0.2 + (a - p0.1) / (p1.1 - p0.1) * (p1.2 - p0.2) ≤ p1.2 := by
              nlinarith [mul_nonneg (sub_nonneg.mpr ht1) (sub_nonneg.mpr hy01)]
            exact le_trans hstep (le_pwl hs.tailAsc htail1 (by simp))
        · have hb1 : ¬b ≤ p1.1 := fun h => ha1 (le_trans hab h)
          rw [if_neg ha1, if_neg hb1]
          exact ih hs.tailAsc hmo.tailOut

lemma head_fst_le_of_getLast? {p q : ℚ × ℚ} {l : List (ℚ × ℚ)} (hs : StrictAsc (p :: l))
    (hq : (p :: l).getLast? = some q) : p.1 ≤ q.1 := by
  rcases List.mem_cons.mp (mem_of_getLast?_eq hq) with h | h
  · exact le_of_eq (congrArg Prod.fst h.symm)
  · exact le_of_lt (hs.head_lt q h)

/-- The bracket scan agrees with `pwl` strictly inside the breakpoint range. -/
lemma interpScan_eq_pwl {v : ℚ} :
    ∀ {l : List (ℚ × ℚ)} {p q : ℚ × ℚ}, StrictAsc l → l.head? = some p →
      l.getLast? = some q → p.1 < v → v < q.1 →
      interpScan v l = some (pwl v l) := by
  intro l
  induction l with
  | nil => intro p q _ hp _ _ _; simp at hp
  | cons p0 tl ih =>
    intro p q hs hp hq hpv hvq
    have hp0 : p0 = p := by simpa using hp
    subst hp0
    cases tl with
    | nil =>
      have hq0 : p0 = q := by simpa using hq
      subst hq0
      exact absurd (lt_trans hpv hvq) (lt_irrefl _)
    | cons p1 rest =>
      obtain ⟨x0, y0⟩ := p0
      obtain ⟨x1, y1⟩ := p1
      rw [List.getLast?_cons_cons] at hq
      have hx0v : x0 < v := hpv
      rw [interpScan]
      by_cases hcond : x0 ≤ v ∧ v ≤ x1
      · rw [if_pos hcond, pwl, if_neg (not_le.mpr hx0v), if_pos hcond.2]
      · have hx1v : x1 < v := by
          rcases not_and_or.mp hcond with h | h
          · exact absurd (le_of_lt hx0v) h
          · exact not_le.mp h
        rw [if_neg hcond, pwl, if_neg (not_le.mpr hx0v), if_neg (not_le.mpr hx1v)]
        exact ih hs.tailAsc rfl hq hx1v hvq

/-- Clamping above the last breakpoint returns the last output. -/
lemma pwl_clamp_hi {v : ℚ} :
    ∀ {l : List (ℚ × ℚ)} {q : ℚ × ℚ}, StrictAsc l → l.getLast? = some q →
      q.1 ≤ v → pwl v l = q.2 := by
  intro l
  induction l with
  | nil => intro q _ hq _; simp at hq
  | cons p0 tl ih =>
    intro q hs hq hqv
    cases tl with
    | nil =>
      have hq0 : p0 = q := by simpa using hq
      subst hq0
      simp [pwl]
    | cons p1 rest =>
      obtain ⟨x0, y0⟩ := p0
      obtain ⟨x1, y1⟩ := p1
      rw [List.getLast?_cons_cons] at hq
      have hx01 : x0 < x1 := hs.head_lt (x1, y1) (by simp)
      have hx1q : x1 ≤ q.1 := head_fst_le_of_getLast? hs.tailAsc hq
      have hx0v : x0 < v := lt_of_lt_of_le hx01 (le_trans hx1q hqv)
      rw [pwl, if_neg (not_le.mpr hx0v)]
      by_cases hv1 : v ≤ x1
      · have hvx1 : v = x1 := le_antisymm hv1 (le_trans hx1q hqv)
        have hq1 : q.1 = x1 := le_antisymm (hvx1 ▸ hqv) hx1q
        have hq2 : q = (x1, y1) := by
          rcases List.mem_cons.mp (mem_of_getLast?_eq hq) with h | h
          · exact h
          · exact absurd (hs.tailAsc.head_lt q h) (by rw [hq1]; exact lt_irrefl x1)
        rw [if_pos hv1, hvx1, hq2, div_self (by linarith : x1 - x0 ≠ 0)]
        ring
      · rw [if_neg hv1]
        exact ih hs.tailAsc hq hqv

/-- A value exactly at a breakpoint input returns that breakpoint's output
exactly. -/
lemma pwl_breakpoint {x y : ℚ} :
    ∀ {l : List (ℚ × ℚ)}, StrictAsc l → (x, y) ∈ l → pwl x l = y := by
  intro l
  induction l with
  | nil => intro _ h; simp at h
  | cons p0 tl ih =>
    intro hs hmem
    cases tl with
    | nil =>
      have h : (x, y) = p0 := by simpa using hmem
      rw [← h]
      simp [pwl]
    | cons p1 rest =>
      obtain ⟨x0, y0⟩ := p0
      obtain ⟨x1, y1⟩ := p1
      have hx01 : x0 < x1 := hs.head_lt (x1, y1) (by simp)
      rcases List.mem_cons.mp hmem with h | hmem1
      · have hx : x = x0 := congrArg Prod.fst h
        have hy : y = y0 := congrArg Prod.snd h
        rw [pwl, if_pos (le_of_eq hx)]
        exact hy.symm
      · have hx0x : x0 < x := hs.head_lt (x, y) hmem1
        rw [pwl, if_neg (not_le.mpr hx0x)]
        by_cases hx1 : x ≤ x1
        · have h1 : (x, y) = (x1, y1) := by
            rcases List.mem_cons.mp hmem1 with h | h
            · exact h
            · exact absurd (hs.tailAsc.head_lt (x, y) h) (not_lt.mpr hx1)
          have hxx1 : x = x1 := congrArg Prod.fst h1
          have hyy1 : y = y1 := congrArg Prod.snd h1
          rw [if_pos hx1, hxx1, div_self (by linarith : x1 - x0 ≠ 0), hyy1]
          ring
        · rw [if_neg hx1]
          exact ih hs.tailAsc hmem1

/-- Strictly between two adjacent breakpoints, `pwl` is the linear
interpolant of that pair. -/
lemma pwl_bracket {v x0 y0 x1 y1 : ℚ} :
    ∀ (pre post : List (ℚ × ℚ)),
      StrictAsc (pre ++ (x0, y0) :: (x1, y1) :: post) → x0 < v → v < x1 →
      pwl v (pre ++ (x0, y0) :: (x1, y1) :: post)
        = y0 + (v - x0) / (x1 - x0) * (y1 - y0) := by
  intro pre
  induction pre with
  | nil =>
    intro post _ h0 h1
    rw [List.nil_append, pwl, if_neg (not_le.mpr h0), if_pos (le_of_lt h1)]
  | cons a pre ih =>
    intro post hs h0 h1
    have ha : a.1 < x0 := hs.head_lt (x0, y0) (by simp)
    cases pre with
    | nil =>
      rw [List.cons_append, List.nil_append, pwl,
        if_neg (not_le.mpr (lt_trans ha h0)), if_neg (not_le.mpr h0)]
      exact ih post hs.tailAsc h0 h1
    | cons b pre2 =>
      have hb : b.1 < x0 := hs.tailAsc.head_lt (x0, y0) (by simp)
      rw [List.cons_append, List.cons_append, pwl,
        if_neg (not_le.mpr (lt_trans ha h0)), if_neg (not_le.mpr (lt_trans hb h0))]
      exact ih post hs.tailAsc h0 h1

/-- On a nonempty, strictly ascending breakpoint list, the post-sort body of
`_interpolate` agrees with the reference evaluator `pwl`. -/
lemma interpolateSorted_eq_pwl {v : ℚ} {l : List (ℚ × ℚ)} (hs : StrictAsc l)
    (hne : l ≠ []) : interpolateSorted v l = pwl v l := by
  cases l with
  | nil => exact absurd rfl hne
  | cons first rest =>
    rw [interpolateSorted]
    have hq : (first :: rest).getLast? =
        some ((first :: rest).getLast (List.cons_ne_nil first rest)) :=
      List.getLast?_eq_getLast _ _
    by_cases h1 : v ≤ first.1
    · rw [if_pos h1]
      cases rest with
      | nil => simp [pwl]
      | cons p1 rs => rw [pwl, if_pos h1]
    · rw [if_neg h1]
      by_cases h2 : ((first :: rest).getLast (List.cons_ne_nil first rest)).1 ≤ v
      · rw [if_pos h2]
        exact (pwl_clamp_hi hs hq h2).symm
      · rw [if_neg h2]
        rw [interpScan_eq_pwl hs rfl hq (not_le.mp h1) (not_le.mp h2)]
        rfl

/-- On a nonempty, strictly ascending breakpoint list, `interpolate` agrees
with the reference evaluator `pwl`. -/
lemma interpolate_eq_pwl {v : ℚ} {l : List (ℚ × ℚ)} (hs : StrictAsc l) (hne : l ≠ []) :
    interpolate v l = pwl v l := by
  rw [interpolate, sort_eq_of_strictAsc hs]
  exact interpolateSorted_eq_pwl hs hne

/-- Lower bound for `interpolate` through the sorted form of the breakpoints. -/
lemma le_interpolate {v m : ℚ} {l s : List (ℚ × ℚ)}
    (hsort : List.insertionSort bpLE l = s) (hs : StrictAsc s)
    (hm : ∀ p ∈ s, m ≤ p.2) (hne : s ≠ []) : m ≤ interpolate v l := by
  rw [interpolate, hsort, interpolateSorted_eq_pwl hs hne]
  exact le_pwl hs hm hne

end InterpolationTheory

section RoundingAndStrings

lemma round_mono_q {a b : ℚ} (h : a ≤ b) : round a ≤ round b := by
  rw [round_eq, round_eq]
  exact Int.floor_le_floor (by linarith)

lemma pyRound_le_pyRound (n : ℕ) {a b : ℚ} (h : a ≤ b) : pyRound n a ≤ pyRound n b := by
  have hp : (0 : ℚ) < 10 ^ n := by positivity
  unfold pyRound
  exact (div_le_div_iff_of_pos_right hp).mpr
    (Int.cast_le.mpr (round_mono_q (mul_le_mul_of_nonneg_right h (le_of_lt hp))))

lemma le_pyRound_clamp {lo hi x : ℚ} (hl : pyRound 2 lo = lo) :
    lo ≤ pyRound 2 (max lo (min hi x)) := by
  calc lo = pyRound 2 lo := hl.symm
    _ ≤ pyRound 2 (max lo (min hi x)) := pyRound_le_pyRound 2 (le_max_left _ _)

lemma pyRound_clamp_le {lo hi x : ℚ} (hh : pyRound 2 hi = hi) (hlh : lo ≤ hi) :
    pyRound 2 (max lo (min hi x)) ≤ hi := by
  calc pyRound 2 (max lo (min hi x)) ≤ pyRound 2 hi :=
        pyRound_le_pyRound 2 (max_le hlh (min_le_left _ _))
    _ = hi := hh

lemma strContainsAux_of_isPrefixOf {hay pat : List Char} (h : pat.isPrefixOf hay = true) :
    strContainsAux hay pat = true := by
  cases hay with
  | nil =>
    cases pat with
    | nil => rfl
    | cons c t => simp [List.isPrefixOf] at h
  | cons c t => rw [strContainsAux, h, Bool.true_or]

/-- A string starting with `pat` contains `pat`. -/
lemma strContains_append_right (pat suf : String) : strContains (pat ++ suf) pat = true := by
  apply strContainsAux_of_isPrefixOf
  apply List.isPrefixOf_iff_prefix.mpr
  rw [String.data_append]
  exact List.prefix_append _ _

end RoundingAndStrings

/-- C4: `_interpolate` is the pure piecewise-linear lookup: it returns the
neutral multiplier 1 on an empty breakpoint list; on breakpoints with strictly
ascending inputs it returns the first output when the value is at or below the
smallest input, the last output when at or above the largest input, the exact
output of a breakpoint whose input equals the value, and otherwise
`y0 + (value-x0)/(x1-x0) * (y1-y0)` for the bracketing pair `(x0,y0),(x1,y1)`. -/
theorem C4_interpolate_clamp_exact_bracket :
    (∀ v : ℚ, interpolate v [] = 1) ∧
    (∀ (v : ℚ) (first : ℚ × ℚ) (rest : List (ℚ × ℚ)), StrictAsc (first :: rest) →
      v ≤ first.1 → interpolate v (first :: rest) = first.2) ∧
    (∀ (v : ℚ) (l : List (ℚ × ℚ)) (q : ℚ × ℚ), StrictAsc l → l.getLast? = some q →
      q.1 ≤ v → interpolate v l = q.2) ∧
    (∀ (x y : ℚ) (l : List (ℚ × ℚ)), StrictAsc l → (x, y) ∈ l →
      interpolate x l = y) ∧
    (∀ (v x0 y0 x1 y1 : ℚ) (pre post : List (ℚ × ℚ)),
      StrictAsc (pre ++ (x0, y0) :: (x1, y1) :: post) → x0 < v → v < x1 →
      interpolate v (pre ++ (x0, y0) :: (x1, y1) :: post)
        = y0 + (v - x0) / (x1 - x0) * (y1 - y0)) := by
  refine ⟨fun _ => rfl, ?_, ?_, ?_, ?_⟩
  · intro v first rest hs hv
    rw [interpolate_eq_pwl hs (List.cons_ne_nil _ _)]
    cases rest with
    | nil => simp [pwl]
    | cons p1 rs => rw [pwl, if_pos hv]
  · intro v l q hs hq hqv
    have hne : l ≠ [] := by
      cases lWith : l with
      | nil => rw [lWith] at hq; simp at hq
      | cons a t => simp
    rw [interpolate_eq_pwl hs hne]
    exact pwl_clamp_hi hs hq hqv
  · intro x y l hs hmem
    rw [interpolate_eq_pwl hs (List.ne_nil_of_mem hmem)]
    exact pwl_breakpoint hs hmem
  · intro v x0 y0 x1 y1 pre post hs h0 h1
    rw [interpolate_eq_pwl hs (by simp)]
    exact pwl_bracket pre post hs h0 h1

/-- Witness for C4 at concrete breakpoints. -/
theorem C4_witness :
    interpolate 3 [] = 1 ∧
    interpolate 0 [(1, 10), (3, 30)] = 10 ∧
    interpolate 5 [(1, 10), (3, 30)] = 30 ∧
    interpolate 3 [(1, 10), (3, 30), (7, 5)] = 30 ∧
    interpolate 2 [(1, 10), (3, 30)] = 10 + (2 - 1) / (3 - 1) * (30 - 10) := by
  obtain ⟨h1, h2, h3, h4, h5⟩ := C4_interpolate_clamp_exact_bracket
  exact ⟨h1 3,
    h2 0 (1, 10) [(3, 30)] (by decide) (by norm_num),
    h3 5 [(1, 10), (3, 30)] (3, 30) (by decide) (by decide) (by norm_num),
    h4 3 30 [(1, 10), (3, 30), (7, 5)] (by decide) (by decide),
    h5 2 1 10 3 30 [] [] (by decide) (by norm_num) (by norm_num)⟩

/-- C1: with the default configuration, every price returned by
`calculate_price` (any space, time, garage state, lead time, garage config)
satisfies `price_floor ≤ final_price ≤ price_ceiling`, i.e. `5 ≤ final_price
≤ 50`: the raw price is clamped to the guardrails before rounding, and
rounding to cents cannot escape the whole-dollar guardrails. -/
theorem C1_final_price_within_guardrails (space : Space) (current_time : ℚ)
    (garage_state : GarageState) (booking_lead_time : Option ℚ)
    (garage_cfg? : Option GarageConfig) :
    pricing_config.price_floor ≤
        (calculate_price space current_time garage_state booking_lead_time none
          garage_cfg?).final_price ∧
      (calculate_price space current_time garage_state booking_lead_time none
          garage_cfg?).final_price ≤ pricing_config.price_ceiling ∧
      pricing_config.price_floor = 5 ∧ pricing_config.price_ceiling = 50 := by
  have h5 : pyRound 2 pricing_config.price_floor = pricing_config.price_floor := by
    norm_num [pricing_config, pyRound, round_eq]
  have h50 : pyRound 2 pricing_config.price_ceiling = pricing_config.price_ceiling := by
    norm_num [pricing_config, pyRound, round_eq]
  refine ⟨?_, ?_, rfl, rfl⟩
  · simp only [calculate_price, Option.getD_none]
    exact le_pyRound_clamp h5
  · simp only [calculate_price, Option.getD_none]
    exact pyRound_clamp_le h50 (by norm_num [pricing_config])

section ElasticityBranch

lemma strContains_of_eq_append {s pat : String} (rest : String) (h : s = pat ++ rest) :
    strContains s pat = true := h ▸ strContains_append_right pat rest

lemma inelastic_note_contains (a b : String) :
    strContains ("Inelastic segment (e=" ++ a ++ "): price pushed up " ++ b ++ "%")
      "Inelastic" = true := by
  apply strContains_of_eq_append
    (" segment (e=" ++ (a ++ ("): price pushed up " ++ (b ++ "%"))))
  simp only [String.append_assoc]
  rw [show "Inelastic segment (e=" = "Inelastic" ++ " segment (e=" from rfl,
    String.append_assoc]

lemma elastic_note_contains (a b : String) :
    strContains ("Elastic segment (e=" ++ a ++ "): price reduced " ++ b ++ "%")
      "Elastic" = true := by
  apply strContains_of_eq_append
    (" segment (e=" ++ (a ++ ("): price reduced " ++ (b ++ "%"))))
  simp only [String.append_assoc]
  rw [show "Elastic segment (e=" = "Elastic" ++ " segment (e=" from rfl,
    String.append_assoc]

end ElasticityBranch

/-- C3 (amended: the note substrings are capitalized as the code writes them —
"Inelastic"/"Elastic"/"Unit"): for the effective elasticity `e` computed
inside `calculate_price`, `e < 1` gives adjustment `1+(1-e) > 1` and a note
mentioning "Inelastic"; `e > 1` gives adjustment `1/e < 1` and a note
mentioning "Elastic"; `e = 1` gives adjustment exactly 1 and a note mentioning
"Unit".  The raw adjustment multiplies the context price; the `PriceResult`
field stores it rounded to 4 decimals. -/
theorem C3_elasticity_branch (space : Space) (current_time : ℚ)
    (garage_state : GarageState) (booking_lead_time : Option ℚ)
    (config : PricingConfig) (garage_cfg : GarageConfig) :
    (calculate_price space current_time garage_state booking_lead_time
        (some config) (some garage_cfg)).optimization_note =
      (elasticityAdjNote (get_elasticity space current_time garage_cfg.game_hour
        booking_lead_time config)).2 ∧
    (calculate_price space current_time garage_state booking_lead_time
        (some config) (some garage_cfg)).elasticity_adjustment =
      pyRound 4 (elasticityAdjNote (get_elasticity space current_time garage_cfg.game_hour
        booking_lead_time config)).1 ∧
    (∀ e : ℚ, e < 1 →
      (elasticityAdjNote e).1 = 1 + (1 - e) ∧ 1 < (elasticityAdjNote e).1 ∧
        strContains (elasticityAdjNote e).2 "Inelastic" = true) ∧
    (∀ e : ℚ, 1 < e →
      (elasticityAdjNote e).1 = 1 / e ∧ (elasticityAdjNote e).1 < 1 ∧
        strContains (elasticityAdjNote e).2 "Elastic" = true) ∧
    (∀ e : ℚ, e = 1 →
      (elasticityAdjNote e).1 = 1 ∧
        strContains (elasticityAdjNote e).2 "Unit" = true) := by
  refine ⟨rfl, rfl, ?_, ?_, ?_⟩
  · intro e he
    rw [elasticityAdjNote, if_pos he]
    exact ⟨rfl, show (1 : ℚ) < 1 + (1 - e) by linarith, inelastic_note_contains _ _⟩
  · intro e he
    rw [elasticityAdjNote, if_neg (not_lt.mpr (le_of_lt he)), if_pos he]
    exact ⟨rfl, show 1 / e < 1 from (div_lt_one (by linarith)).mpr he,
      elastic_note_contains _ _⟩
  · intro e he
    subst he
    rw [elasticityAdjNote, if_neg (lt_irrefl 1), if_neg (lt_irrefl 1)]
    exact ⟨rfl, by decide⟩

/-- Witness for C3 at the three concrete elasticity regimes: EV/zone A
(`e = 0.63`), MOTORCYCLE/zone C (`e = 1.43`), STANDARD/zone B (`e = 1`). -/
theorem C3_witness :
    ((elasticityAdjNote (get_elasticity spaceEvA 11 19 none pricing_config)).1 =
        1 + (1 - get_elasticity spaceEvA 11 19 none pricing_config) ∧
      1 < (elasticityAdjNote (get_elasticity spaceEvA 11 19 none pricing_config)).1 ∧
      strContains (elasticityAdjNote
        (get_elasticity spaceEvA 11 19 none pricing_config)).2 "Inelastic" = true) ∧
    ((elasticityAdjNote (get_elasticity spaceMotoC 11 19 none pricing_config)).1 < 1 ∧
      strContains (elasticityAdjNote
        (get_elasticity spaceMotoC 11 19 none pricing_config)).2 "Elastic" = true) ∧
    ((elasticityAdjNote (get_elasticity spaceStdB 11 19 none pricing_config)).1 = 1 ∧
      strContains (elasticityAdjNote
        (get_elasticity spaceStdB 11 19 none pricing_config)).2 "Unit" = true) := by
  obtain ⟨-, -, hlt, hgt, heq⟩ :=
    C3_elasticity_branch spaceEvA 11 gsTwoSpaces none pricing_config garage_config
  have h1 := hlt (get_elasticity spaceEvA 11 19 none pricing_config)
    (by norm_num [get_elasticity, pricing_config, spaceEvA])
  have h2 := hgt (get_elasticity spaceMotoC 11 19 none pricing_config)
    (by norm_num [get_elasticity, pricing_config, spaceMotoC])
  have h3 := heq (get_elasticity spaceStdB 11 19 none pricing_config)
    (by norm_num [get_elasticity, pricing_config, spaceStdB])
  exact ⟨⟨h1.1, h1.2.1, h1.2.2⟩, ⟨h2.2.1, h2.2.2⟩, ⟨h3.1, h3.2⟩⟩

/-- C3 counterexample to the claim as stated: for the inelastic input
EV/zone A at 11:00 the effective elasticity is `0.63 < 1` but the note
"Inelastic segment (e=0.63): price pushed up 37%" does not contain the
lowercase substring "inelastic" (Python's `in` is case-sensitive), and
likewise the other branches capitalize their keywords. -/
theorem C3_counterexample :
    get_elasticity spaceEvA 11 19 none pricing_config < 1 ∧
    strContains (calculate_price spaceEvA 11 gsTwoSpaces none none
        none).optimization_note "inelastic" = false := by
  constructor
  · norm_num [get_elasticity, pricing_config, spaceEvA]
  · with_unfolding_all rfl

section OccupancyMonotone

/-- Appending ACTIVE reservations covering the query time never lowers the
occupancy rate. -/
lemma get_occupancy_rate_append_le (gs : GarageState) (t : ℚ) (added : List Reservation)
    (h : ∀ r ∈ added, r.status = ReservationStatus.ACTIVE ∧
      r.start_time ≤ t ∧ t < r.end_time) :
    get_occupancy_rate gs t ≤
      get_occupancy_rate { gs with reservations := gs.reservations ++ added } t := by
  unfold get_occupancy_rate
  by_cases hN : gs.spaces.length = 0
  · simp [hN]
  · have hpos : (0 : ℚ) < (gs.spaces.length : ℚ) := by
      exact_mod_cast Nat.pos_of_ne_zero hN
    simp only [if_neg hN]
    apply (div_le_div_iff_of_pos_right hpos).mpr
    apply Nat.cast_le.mpr
    rw [List.countP_append]
    exact Nat.le_add_right _ _

/-- The sorted occupancy-multiplier breakpoints of the default configuration. -/
lemma occupancy_multipliers_sorted :
    List.insertionSort bpLE pricing_config.occupancy_multipliers =
      pricing_config.occupancy_multipliers := by decide

lemma occupancy_multiplier_mono {a b : ℚ} (hab : a ≤ b) :
    interpolate a pricing_config.occupancy_multipliers ≤
      interpolate b pricing_config.occupancy_multipliers := by
  rw [interpolate_eq_pwl (by decide) (by decide), interpolate_eq_pwl (by decide) (by decide)]
  exact pwl_mono hab (by decide) (by decide)

/-- The time-of-day multiplier (default configuration) is at least 1/2. -/
lemma time_multiplier_lb (ct : ℚ) (gh : ℤ) :
    1 / 2 ≤ get_time_multiplier ct gh pricing_config := by
  unfold get_time_multiplier
  exact le_interpolate
    (s := [(-4, 0.8), (-1, 1.5), (0, 2.5), (1, 2), (2, 1.5), (4, 1), (8, 0.7), (13, 0.5)])
    (by with_unfolding_all decide) (by decide) (by with_unfolding_all decide) (by decide)

/-- The demand multiplier is at least 1/20. -/
lemma demand_multiplier_lb (ct : ℚ) : 1 / 20 ≤ get_demand_multiplier ct := by
  unfold get_demand_multiplier
  exact le_interpolate (s := DEMAND_FORECAST.map fun p => ((p.1 : ℚ), p.2))
    (by with_unfolding_all decide) (by with_unfolding_all decide)
    (by with_unfolding_all decide) (by decide)

/-- The raw elasticity adjustment is always positive. -/
lemma elasticityAdjNote_pos (e : ℚ) : 0 < (elasticityAdjNote e).1 := by
  rw [elasticityAdjNote]
  split_ifs with h1 h2
  · show (0 : ℚ) < 1 + (1 - e)
    linarith
  · show (0 : ℚ) < 1 / e
    exact one_div_pos.mpr (by linarith)
  · norm_num

lemma mul_chain_mono {occ1 occ2 b t d l e a : ℚ} (hocc : occ1 ≤ occ2) (hb : 0 ≤ b)
    (ht : 0 ≤ t) (hd : 0 ≤ d) (hl : 0 ≤ l) (he : 0 ≤ e) (ha : 0 ≤ a) :
    b * occ1 * t * d * l * e * a ≤ b * occ2 * t * d * l * e * a := by
  have hK : 0 ≤ b * t * d * l * e * a := by positivity
  calc b * occ1 * t * d * l * e * a = occ1 * (b * t * d * l * e * a) := by ring
    _ ≤ occ2 * (b * t * d * l * e * a) := mul_le_mul_of_nonneg_right hocc hK
    _ = b * occ2 * t * d * l * e * a := by ring

end OccupancyMonotone

/-- C7: holding the space, the query time, the lead time and all existing
reservations fixed, adding ACTIVE reservations whose `[start_time, end_time)`
interval contains the query time never decreases the final price computed by
`calculate_price` under the default configuration: the occupancy rate rises,
the occupancy breakpoint curve is non-decreasing, every other multiplier and
the elasticity adjustment are unchanged and positive, and clamping plus
rounding preserve order. -/
theorem C7_price_monotone_in_occupancy (space : Space) (t : ℚ) (gs : GarageState)
    (lead : Option ℚ) (added : List Reservation)
    (h : ∀ r ∈ added, r.status = ReservationStatus.ACTIVE ∧
      r.start_time ≤ t ∧ t < r.end_time) :
    (calculate_price space t gs lead none none).final_price ≤
      (calculate_price space t { gs with reservations := gs.reservations ++ added }
        lead none none).final_price := by
  have hocc : get_occupancy_multiplier gs t pricing_config ≤
      get_occupancy_multiplier { gs with reservations := gs.reservations ++ added } t
        pricing_config := by
    unfold get_occupancy_multiplier
    exact occupancy_multiplier_mono (get_occupancy_rate_append_le gs t added h)
  have hb : (0 : ℚ) ≤ pricing_config.base_prices space.type := by
    cases space.type <;> norm_num [pricing_config]
  have ht : (0 : ℚ) ≤ get_time_multiplier t garage_config.game_hour pricing_config :=
    le_trans (by norm_num) (time_multiplier_lb t garage_config.game_hour)
  have hd : (0 : ℚ) ≤ get_demand_multiplier t :=
    le_trans (by norm_num) (demand_multiplier_lb t)
  have hl : (0 : ℚ) ≤ pricing_config.location_multipliers space.zone := by
    cases space.zone <;> norm_num [pricing_config]
  have hev : (0 : ℚ) ≤ pricing_config.event_multiplier := by norm_num [pricing_config]
  have ha : (0 : ℚ) ≤ (elasticityAdjNote (get_elasticity space t garage_config.game_hour
      lead pricing_config)).1 := le_of_lt (elasticityAdjNote_pos _)
  simp only [calculate_price, Option.getD_none]
  apply pyRound_le_pyRound
  apply max_le_max (le_refl _)
  apply min_le_min (le_refl _)
  exact mul_chain_mono hocc hb ht hd hl hev ha

/-- Witness for C7: booking one more overlapping ACTIVE reservation at 11:00
never lowers the price of the standard zone-B space. -/
theorem C7_witness :
    (∀ r ∈ [sampleActive], r.status = ReservationStatus.ACTIVE ∧
      r.start_time ≤ (11 : ℚ) ∧ (11 : ℚ) < r.end_time) ∧
    (calculate_price spaceStdB 11 gsTwoSpaces none none none).final_price ≤
      (calculate_price spaceStdB 11
        { gsTwoSpaces with reservations := gsTwoSpaces.reservations ++ [sampleActive] }
        none none none).final_price := by
  refine ⟨by decide, ?_⟩
  exact C7_price_monotone_in_occupancy spaceStdB 11 gsTwoSpaces none [sampleActive]
    (by decide)

/-- C9: degenerate numeric cases never raise and fall back to neutral
defaults: a tick with zero available spaces (in particular a garage with zero
spaces, whose available list is empty) returns an empty new-bookings list and
leaves the state and draw counter untouched; the occupancy rate of a zero-space
garage is 0; weighted selection with zero total weight falls back to the
uniform `random.choice` draw (an element of the list); and an empty breakpoint
set yields the neutral multiplier 1.  All engine functions are total in the
embedding, so pricing and the simulation step are defined in all states. -/
theorem C9_degenerate_cases :
    (∀ (gs : GarageState) (held : List String) (o : Oracle) (k : ℕ),
      get_available_spaces gs held = [] →
        run_auto_booking gs held o k = ([], gs, k)) ∧
    (∀ (gs : GarageState) (held : List String), gs.spaces = [] →
        get_available_spaces gs held = []) ∧
    (∀ (gs : GarageState) (t : ℚ), gs.spaces = [] → get_occupancy_rate gs t = 0) ∧
    (∀ (spaces : List Space) (weights : List ℚ) (o : Oracle) (k : ℕ),
      spaces ≠ [] → weights.sum = 0 →
        weightedChoice spaces weights o k =
          (spaces.get? (o.choice k % spaces.length), k + 1) ∧
        ∃ s ∈ spaces, (weightedChoice spaces weights o k).1 = some s) ∧
    (∀ v : ℚ, interpolate v [] = 1) := by
  refine ⟨?_, ?_, ?_, ?_, fun _ => rfl⟩
  · intro gs held o k h
    simp only [run_auto_booking]
    rw [if_pos h]
  · intro gs held h
    simp [get_available_spaces, h]
  · intro gs t h
    simp [get_occupancy_rate, h]
  · intro spaces weights o k hne hzero
    have hmain : weightedChoice spaces weights o k =
        (spaces.get? (o.choice k % spaces.length), k + 1) := by
      rw [weightedChoice, if_pos hzero]
    refine ⟨hmain, ?_⟩
    have hlen : 0 < spaces.length := List.length_pos.mpr hne
    have hidx : o.choice k % spaces.length < spaces.length := Nat.mod_lt _ hlen
    refine ⟨spaces.get ⟨_, hidx⟩, List.get_mem _ _ _, ?_⟩
    rw [hmain]
    exact List.get?_eq_get hidx

/-- Witness for C9: a garage with no spaces and a one-element zero-weight
selection. -/
theorem C9_witness :
    run_auto_booking gsNoSpaces [] oracle0 0 = ([], gsNoSpaces, 0) ∧
    get_occupancy_rate gsNoSpaces 10 = 0 ∧
    (weightedChoice [spaceStdB] [0] oracle0 0).1 = some spaceStdB ∧
    interpolate 7 [] = 1 := by
  obtain ⟨h1, havail, h2, h3, h4⟩ := C9_degenerate_cases
  refine ⟨h1 gsNoSpaces [] oracle0 0 (havail gsNoSpaces [] rfl), h2 gsNoSpaces 10 rfl,
    ?_, h4 7⟩
  have h := (h3 [spaceStdB] [0] oracle0 0 (by simp) (by simp)).1
  rw [h]
  rfl

section EventLogLemmas

lemma trimAppend_length_le (cap : ℕ) (log : List EventLogEntry) (e : EventLogEntry) :
    (trimAppend cap log e).length ≤ cap := by
  show (if cap < (log ++ [e]).length then
      (log ++ [e]).drop ((log ++ [e]).length - cap) else log ++ [e]).length ≤ cap
  split_ifs with h
  · rw [List.length_drop]
    omega
  · exact not_lt.mp h

lemma trimAppend_suffix (cap : ℕ) (log : List EventLogEntry) (e : EventLogEntry) :
    trimAppend cap log e <:+ log ++ [e] := by
  show (if cap < (log ++ [e]).length then
      (log ++ [e]).drop ((log ++ [e]).length - cap) else log ++ [e]) <:+ log ++ [e]
  split_ifs
  · exact List.drop_suffix _ _
  · exact List.suffix_refl _

lemma suffix_append_right {α : Type} {a b : List α} (c : List α) (h : a <:+ b) :
    a ++ c <:+ b ++ c := by
  obtain ⟨t, rfl⟩ := h
  exact ⟨t, (List.append_assoc t a c).symm⟩

lemma logStep_length_le (log : List EventLogEntry) (op : Bool × EventLogEntry) :
    (logStep log op).length ≤ MAIN_EVENT_LOG_CAP := by
  unfold logStep
  split_ifs
  · exact le_trans (trimAppend_length_le _ _ _) (by norm_num [MAX_EVENT_LOG_SIZE, MAIN_EVENT_LOG_CAP])
  · exact trimAppend_length_le _ _ _

lemma logStep_suffix (log : List EventLogEntry) (op : Bool × EventLogEntry) :
    logStep log op <:+ log ++ [op.2] := by
  unfold logStep
  split_ifs <;> exact trimAppend_suffix _ _ _

end EventLogLemmas

/-- C6: after any nonempty sequence of event-log appends through the two code
paths — `_add_event` (cap 50) and the manual-booking handler (cap 100) — the
log length never exceeds the larger configured maximum (100), the retained
entries are exactly a suffix of the appended stream in original order (FIFO
trimming), and a sequence of `_add_event` appends alone is bounded by 50.
(The 50-versus-100 cap split is the inconsistency the spec flags.) -/
theorem C6_event_log_fifo_bound :
    ∀ (ops : List (Bool × EventLogEntry)) (init : List EventLogEntry), ops ≠ [] →
      (ops.foldl logStep init).length ≤ MAIN_EVENT_LOG_CAP ∧
      (ops.foldl logStep init) <:+ (init ++ ops.map fun op => op.2) ∧
      ((∀ op ∈ ops, op.1 = true) →
        (ops.foldl logStep init).length ≤ MAX_EVENT_LOG_SIZE) := by
  intro ops
  induction ops with
  | nil => intro init h; exact absurd rfl h
  | cons op ops ih =>
    intro init _
    rw [List.foldl_cons]
    by_cases hops : ops = []
    · subst hops
      simp only [List.foldl_nil]
      refine ⟨logStep_length_le init op, ?_, ?_⟩
      · simpa using logStep_suffix init op
      · intro hall
        have hop : op.1 = true := hall op (by simp)
        unfold logStep
        rw [if_pos hop]
        exact trimAppend_length_le _ _ _
    · obtain ⟨h1, h2, h3⟩ := ih (logStep init op) hops
      refine ⟨h1, ?_, fun hall => h3 fun p hp => hall p (List.mem_cons_of_mem _ hp)⟩
      have happ : (logStep init op) ++ ops.map (fun p => p.2) <:+
          (init ++ [op.2]) ++ ops.map (fun p => p.2) :=
        suffix_append_right _ (logStep_suffix init op)
      have heq : (init ++ [op.2]) ++ ops.map (fun p => p.2) =
          init ++ (op :: ops).map (fun p => p.2) := by simp
      exact heq ▸ h2.trans happ

/-- Witness for C6 with a single `_add_event`-path append to an empty log. -/
theorem C6_witness :
    ([(true, sampleEvent)].foldl logStep []).length ≤ MAIN_EVENT_LOG_CAP ∧
    ([(true, sampleEvent)].foldl logStep []) <:+
      ([] ++ [(true, sampleEvent)].map fun op => op.2) ∧
    ([(true, sampleEvent)].foldl logStep []).length ≤ MAX_EVENT_LOG_SIZE := by
  obtain ⟨h1, h2, h3⟩ := C6_event_log_fifo_bound [(true, sampleEvent)] [] (by simp)
  exact ⟨h1, h2, h3 (by simp)⟩

section ClearingLemmas

lemma clearLoop_cons_notActive {ct rate : ℚ} {o : Oracle} {r : Reservation}
    {rest : List Reservation} {k : ℕ} (h : ¬r.status = ReservationStatus.ACTIVE) :
    clearLoop ct rate o (r :: rest) k =
      (r :: (clearLoop ct rate o rest k).1, (clearLoop ct rate o rest k).2) := by
  rw [clearLoop, if_pos h]

lemma clearLoop_cons_expired {ct rate : ℚ} {o : Oracle} {r : Reservation}
    {rest : List Reservation} {k : ℕ} (hact : r.status = ReservationStatus.ACTIVE)
    (hexp : r.end_time ≤ ct) :
    clearLoop ct rate o (r :: rest) k =
      ({ r with status := ReservationStatus.COMPLETED } :: (clearLoop ct rate o rest k).1,
        r.space_id :: (clearLoop ct rate o rest k).2.1,
        (⟨ct, "departure", "Reservation completed for " ++ r.space_id⟩ : EventLogEntry)
          :: (clearLoop ct rate o rest k).2.2.1,
        (clearLoop ct rate o rest k).2.2.2) := by
  rw [clearLoop, if_neg (not_not_intro hact), if_pos hexp]

lemma clearLoop_cons_early {ct rate : ℚ} {o : Oracle} {r : Reservation}
    {rest : List Reservation} {k : ℕ} (hact : r.status = ReservationStatus.ACTIVE)
    (hexp : ¬r.end_time ≤ ct) (hsim : r.is_simulated = true)
    (hdraw : o.unif k < rate) :
    clearLoop ct rate o (r :: rest) k =
      ({ r with status := ReservationStatus.COMPLETED }
          :: (clearLoop ct rate o rest (k + 1)).1,
        r.space_id :: (clearLoop ct rate o rest (k + 1)).2.1,
        (if GAME_END_HOUR ≤ ct then
          (⟨ct, "post_game_departure", "Post-game departure from " ++ r.space_id⟩ :
            EventLogEntry)
        else
          ⟨ct, "early_departure", "Early departure from " ++ r.space_id ++ " ("
            ++ fmtFixed (r.end_time - ct) 1 ++ "hr remaining)"⟩)
          :: (clearLoop ct rate o rest (k + 1)).2.2.1,
        (clearLoop ct rate o rest (k + 1)).2.2.2) := by
  rw [clearLoop, if_neg (not_not_intro hact), if_neg hexp, if_pos hsim, if_pos hdraw]

lemma clearLoop_cons_nodraw {ct rate : ℚ} {o : Oracle} {r : Reservation}
    {rest : List Reservation} {k : ℕ} (hact : r.status = ReservationStatus.ACTIVE)
    (hexp : ¬r.end_time ≤ ct) (hsim : r.is_simulated = true)
    (hdraw : ¬o.unif k < rate) :
    clearLoop ct rate o (r :: rest) k =
      (r :: (clearLoop ct rate o rest (k + 1)).1, (clearLoop ct rate o rest (k + 1)).2) := by
  rw [clearLoop, if_neg (not_not_intro hact), if_neg hexp, if_pos hsim, if_neg hdraw]

lemma clearLoop_cons_manual {ct rate : ℚ} {o : Oracle} {r : Reservation}
    {rest : List Reservation} {k : ℕ} (hact : r.status = ReservationStatus.ACTIVE)
    (hexp : ¬r.end_time ≤ ct) (hsim : ¬r.is_simulated = true) :
    clearLoop ct rate o (r :: rest) k =
      (r :: (clearLoop ct rate o rest k).1, (clearLoop ct rate o rest k).2) := by
  rw [clearLoop, if_neg (not_not_intro hact), if_neg hexp, if_neg hsim]

/-- Full characterization of one clearing pass: each reservation is related to
its updated version by `clearRel`, and every expired ACTIVE reservation is
reported in the cleared ids and gets a "departure" event entry. -/
lemma clearLoop_spec (ct rate : ℚ) (o : Oracle) :
    ∀ (rs : List Reservation) (k : ℕ),
      List.Forall₂ (clearRel ct) rs (clearLoop ct rate o rs k).1 ∧
      ∀ r ∈ rs, r.status = ReservationStatus.ACTIVE → r.end_time ≤ ct →
        r.space_id ∈ (clearLoop ct rate o rs k).2.1 ∧
        (⟨ct, "departure", "Reservation completed for " ++ r.space_id⟩ : EventLogEntry)
          ∈ (clearLoop ct rate o rs k).2.2.1 := by
  intro rs
  induction rs with
  | nil =>
    intro k
    refine ⟨by rw [clearLoop]; exact List.Forall₂.nil, ?_⟩
    intro r hr
    simp at hr
  | cons r rest ih =>
    intro k
    by_cases hact : r.status = ReservationStatus.ACTIVE
    · by_cases hexp : r.end_time ≤ ct
      · obtain ⟨ihF, ihM⟩ := ih k
        rw [clearLoop_cons_expired hact hexp]
        constructor
        · refine List.Forall₂.cons ?_ ihF
          refine ⟨Or.inr ⟨hact, rfl⟩, fun _ => rfl, ?_, fun h => absurd hact h⟩
          intro hc
          exact absurd hc.2.2 (not_lt.mpr hexp)
        · intro r2 hr2 hact2 hexp2
          rcases List.mem_cons.mp hr2 with h | h
          · subst h
            exact ⟨List.mem_cons_self _ _, List.mem_cons_self _ _⟩
          · obtain ⟨hm1, hm2⟩ := ihM r2 h hact2 hexp2
            exact ⟨List.mem_cons_of_mem _ hm1, List.mem_cons_of_mem _ hm2⟩
      · by_cases hsim : r.is_simulated = true
        · by_cases hdraw : o.unif k < rate
          · obtain ⟨ihF, ihM⟩ := ih (k + 1)
            rw [clearLoop_cons_early hact hexp hsim hdraw]
            constructor
            · refine List.Forall₂.cons ?_ ihF
              refine ⟨Or.inr ⟨hact, rfl⟩, fun hc => absurd hc.2 hexp, ?_,
                fun h => absurd hact h⟩
              intro hc
              rw [hsim] at hc
              exact absurd hc.2.1 (by simp)
            · intro r2 hr2 hact2 hexp2
              rcases List.mem_cons.mp hr2 with h | h
              · subst h
                exact absurd hexp2 hexp
              · obtain ⟨hm1, hm2⟩ := ihM r2 h hact2 hexp2
                exact ⟨List.mem_cons_of_mem _ hm1, List.mem_cons_of_mem _ hm2⟩
          · obtain ⟨ihF, ihM⟩ := ih (k + 1)
            rw [clearLoop_cons_nodraw hact hexp hsim hdraw]
            constructor
            · refine List.Forall₂.cons ?_ ihF
              exact ⟨Or.inl rfl, fun hc => absurd hc.2 hexp, fun _ => rfl, fun _ => rfl⟩
            · intro r2 hr2 hact2 hexp2
              rcases List.mem_cons.mp hr2 with h | h
              · subst h
                exact absurd hexp2 hexp
              · obtain ⟨hm1, hm2⟩ := ihM r2 h hact2 hexp2
                exact ⟨hm1, hm2⟩
        · obtain ⟨ihF, ihM⟩ := ih k
          rw [clearLoop_cons_manual hact hexp hsim]
          constructor
          · refine List.Forall₂.cons ?_ ihF
            exact ⟨Or.inl rfl, fun hc => absurd hc.2 hexp, fun _ => rfl, fun _ => rfl⟩
          · intro r2 hr2 hact2 hexp2
            rcases List.mem_cons.mp hr2 with h | h
            · subst h
              exact absurd hexp2 hexp
            · obtain ⟨hm1, hm2⟩ := ihM r2 h hact2 hexp2
              exact ⟨hm1, hm2⟩
    · obtain ⟨ihF, ihM⟩ := ih k
      rw [clearLoop_cons_notActive hact]
      constructor
      · refine List.Forall₂.cons ?_ ihF
        exact ⟨Or.inl rfl, fun hc => absurd hc.1 hact, fun hc => absurd hc.1 hact,
          fun _ => rfl⟩
      · intro r2 hr2 hact2 hexp2
        rcases List.mem_cons.mp hr2 with h | h
        · subst h
          exact absurd hact2 hact
        · obtain ⟨hm1, hm2⟩ := ihM r2 h hact2 hexp2
          exact ⟨hm1, hm2⟩

/-- `run_auto_clearing` in terms of `clearLoop`. -/
lemma run_auto_clearing_eq (gs : GarageState) (o : Oracle) (k : ℕ) :
    run_auto_clearing gs o k =
      ({ gs with
          reservations := (clearLoop gs.current_time
            (clearingDepartureRate gs.current_time) o gs.reservations k).1
          event_log := (clearLoop gs.current_time
            (clearingDepartureRate gs.current_time) o gs.reservations k).2.2.1.foldl
              (trimAppend MAX_EVENT_LOG_SIZE) gs.event_log },
        (clearLoop gs.current_time (clearingDepartureRate gs.current_time) o
          gs.reservations k).2.1,
        (clearLoop gs.current_time (clearingDepartureRate gs.current_time) o
          gs.reservations k).2.2.2) := by
  rw [run_auto_clearing]

end ClearingLemmas

/-- C8: one clearing pass relates every reservation to its update by
`clearRel`: an ACTIVE reservation with `end_time ≤ current_time` transitions
to COMPLETED (and only the status changes), is reported among the cleared
space ids, and a "departure" event entry for it is generated; an ACTIVE
manually booked (non-simulated) reservation that has not expired is never
transitioned, under every random draw; a reservation that is not ACTIVE
(already COMPLETED or CANCELLED) is left exactly unchanged — hence a second
clearing pass over an already-COMPLETED reservation is a no-op. -/
theorem C8_auto_clearing_transitions (gs : GarageState) (o : Oracle) (k : ℕ) :
    List.Forall₂ (clearRel gs.current_time) gs.reservations
      (run_auto_clearing gs o k).1.reservations ∧
    ∀ r ∈ gs.reservations, r.status = ReservationStatus.ACTIVE →
      r.end_time ≤ gs.current_time →
        r.space_id ∈ (run_auto_clearing gs o k).2.1 ∧
        (⟨gs.current_time, "departure", "Reservation completed for " ++ r.space_id⟩ :
            EventLogEntry) ∈
          (clearLoop gs.current_time (clearingDepartureRate gs.current_time) o
            gs.reservations k).2.2.1 := by
  rw [run_auto_clearing_eq]
  obtain ⟨hF, hM⟩ :=
    clearLoop_spec gs.current_time (clearingDepartureRate gs.current_time) o
      gs.reservations k
  exact ⟨hF, hM⟩

/-- Witness for C8 on a concrete garage at 09:00 with an expired simulated
reservation, a live manual reservation, and a COMPLETED one. -/
theorem C8_witness :
    sampleExpired.space_id ∈ (run_auto_clearing gsClearSample oracle0 0).2.1 ∧
    (⟨gsClearSample.current_time, "departure",
        "Reservation completed for " ++ sampleExpired.space_id⟩ : EventLogEntry) ∈
      (clearLoop gsClearSample.current_time
        (clearingDepartureRate gsClearSample.current_time) oracle0
        gsClearSample.reservations 0).2.2.1 := by
  have h := (C8_auto_clearing_transitions gsClearSample oracle0 0).2 sampleExpired
    (by simp [gsClearSample]) rfl (by norm_num [sampleExpired, gsClearSample])
  exact h

section SelectionLemmas

lemma cumulativePick_mem {α : Type} {r : ℚ} :
    ∀ {l : List (α × ℚ)} {c : ℚ} {a : α},
      cumulativePick r l c = some a → ∃ w, (a, w) ∈ l := by
  intro l
  induction l with
  | nil => intro c a h; simp [cumulativePick] at h
  | cons p rest ih =>
    intro c a h
    obtain ⟨x, w⟩ := p
    rw [cumulativePick] at h
    split_ifs at h with hc
    · exact ⟨w, by rw [← Option.some.inj h]; exact List.mem_cons_self _ _⟩
    · obtain ⟨w2, hw⟩ := ih h
      exact ⟨w2, List.mem_cons_of_mem _ hw⟩

/-- A space returned by the weighted-choice tail comes from the list. -/
lemma weightedChoice_mem {spaces : List Space} {weights : List ℚ} {o : Oracle}
    {k : ℕ} {s : Space} (h : (weightedChoice spaces weights o k).1 = some s) :
    s ∈ spaces := by
  rw [weightedChoice] at h
  split_ifs at h with htot
  · exact List.get?_mem h
  · rcases hcp : cumulativePick (o.unif k * weights.sum) (spaces.zip weights) 0 with _ | s2
    · rw [hcp] at h
      exact mem_of_getLast?_eq h
    · rw [hcp] at h
      obtain ⟨w, hw⟩ := cumulativePick_mem hcp
      rw [← Option.some.inj h]
      exact (List.of_mem_zip hw).1

/-- A space returned by `_select_weighted_space` comes from the available
list. -/
lemma select_weighted_space_mem {av : List Space} {gs : GarageState} {o : Oracle}
    {k : ℕ} {s : Space} (h : (select_weighted_space av gs o k).1 = some s) :
    s ∈ av := by
  rw [select_weighted_space] at h
  by_cases hav : av = []
  · rw [if_pos hav] at h
    simp at h
  · rw [if_neg hav] at h
    exact weightedChoice_mem h

lemma duration_weights_bounds : ∀ p ∈ DURATION_WEIGHTS, 1 ≤ p.1 ∧ p.1 ≤ 4 := by decide

/-- `_select_duration` always returns a duration between 1 and 4 hours. -/
lemma select_duration_bounds (ct se : ℚ) (o : Oracle) (k : ℕ) :
    1 ≤ (select_duration ct se o k).1 ∧ (select_duration ct se o k).1 ≤ 4 := by
  rw [select_duration]
  split_ifs with hmd
  · exact ⟨le_refl 1, by norm_num⟩
  · have hmem : ∀ d ∈ (validDurationWeights (min 4 (pyInt (se - ct)))), 1 ≤ d.1 ∧ d.1 ≤ 4 :=
      fun d hd => duration_weights_bounds d (List.mem_of_mem_filter hd)
    rcases hcp : cumulativePick
        (o.unif k * ((validDurationWeights (min 4 (pyInt (se - ct)))).map (·.2)).sum)
        (validDurationWeights (min 4 (pyInt (se - ct)))) 0 with _ | d
    · have hne : validDurationWeights (min 4 (pyInt (se - ct))) ≠ [] := by
        have h1 : ((1 : ℤ), (0.10 : ℚ)) ∈ validDurationWeights (min 4 (pyInt (se - ct))) := by
          apply List.mem_filter.mpr
          refine ⟨by decide, ?_⟩
          simpa using not_lt.mp hmd
        exact List.ne_nil_of_mem h1
      obtain ⟨q, hq⟩ := Option.ne_none_iff_exists.mp
        (mt List.getLast?_eq_none_iff.mp hne)
      obtain ⟨h1, h4⟩ := hmem q (mem_of_getLast?_eq hq.symm)
      constructor
      · show (1 : ℤ) ≤ (((validDurationWeights (min 4 (pyInt (se - ct)))).getLast?).map
          (·.1)).getD 0
        rw [← hq]
        simpa using h1
      · show (((validDurationWeights (min 4 (pyInt (se - ct)))).getLast?).map
          (·.1)).getD 0 ≤ 4
        rw [← hq]
        simpa using h4
    · obtain ⟨w, hw⟩ := cumulativePick_mem hcp
      exact hmem (d, w) hw

/-- The game-window duration combination also stays within 1-4 hours. -/
lemma chooseBookingDuration_bounds (ct se : ℚ) (o : Oracle) (k : ℕ) :
    1 ≤ (chooseBookingDuration ct se o k).1 ∧ (chooseBookingDuration ct se o k).1 ≤ 4 := by
  rw [chooseBookingDuration]
  split_ifs with hgw htug
  · constructor
    · exact le_min (by norm_num) (le_max_of_le_left (le_max_left _ _))
    · exact min_le_left _ _
  · exact select_duration_bounds ct se o k
  · exact select_duration_bounds ct se o k

end SelectionLemmas

section BookingSpecLemmas

lemma add_event_current_time (gs : GarageState) (ty d : String) :
    (add_event gs ty d).current_time = gs.current_time := rfl

lemma add_event_spaces (gs : GarageState) (ty d : String) :
    (add_event gs ty d).spaces = gs.spaces := rfl

lemma add_event_reservations (gs : GarageState) (ty d : String) :
    (add_event gs ty d).reservations = gs.reservations := rfl

/-- Every reservation accumulated by the booking burst loop satisfies
`SimBookingSpec` for the loop's current time and the garage's space list. -/
lemma bookingAttempts_spec (ct sim_end target demand : ℚ) (S : List Space)
    (total : ℕ) (held : List String) (o : Oracle) :
    ∀ (fuel : ℕ) (gs : GarageState) (k : ℕ) (acc : List Reservation),
      gs.current_time = ct → gs.spaces = S →
      (∀ r ∈ acc, SimBookingSpec S ct r) →
      ∀ r ∈ (bookingAttempts ct sim_end total target demand held o fuel gs k acc).1,
        SimBookingSpec S ct r := by
  intro fuel
  induction fuel with
  | zero =>
    intro gs k acc _ _ hacc r hr
    exact hacc r hr
  | succ n ih =>
    intro gs k acc hct hsp hacc r hr
    rw [bookingAttempts] at hr
    by_cases hav : get_available_spaces gs held = []
    · rw [if_pos hav] at hr
      exact hacc r hr
    · rw [if_neg hav] at hr
      by_cases hdraw : bookingProbability ct
          (1 - ((get_available_spaces gs held).length : ℚ) / (total : ℚ))
          (target - (1 - ((get_available_spaces gs held).length : ℚ) / (total : ℚ)))
          demand < o.unif k
      · rw [if_pos hdraw] at hr
        exact ih gs (k + 1) acc hct hsp hacc r hr
      · rw [if_neg hdraw] at hr
        rcases hsel : select_weighted_space (get_available_spaces gs held) gs o (k + 1)
          with ⟨os, k2⟩
        rw [hsel] at hr
        cases os with
        | none => exact ih gs k2 acc hct hsp hacc r hr
        | some space =>
          refine ih _ _ _ ?_ ?_ ?_ r hr
          · rw [add_event_current_time]
            exact hct
          · rw [add_event_spaces]
            exact hsp
          · intro r2 hr2
            rcases List.mem_append.mp hr2 with h | h
            · exact hacc r2 h
            · have hres : r2 = mkSimReservation ct space (calculate_price space ct gs)
                  (chooseBookingDuration ct sim_end o k2).1
                  (o.fresh (chooseBookingDuration ct sim_end o k2).2) := by
                simpa using h
              subst hres
              have hmem : space ∈ get_available_spaces gs held :=
                select_weighted_space_mem (by rw [hsel])
              have hbnd := chooseBookingDuration_bounds ct sim_end o k2
              refine ⟨rfl, rfl, rfl,
                (chooseBookingDuration ct sim_end o k2).1, space, gs,
                hbnd.1, hbnd.2, rfl, ?_, rfl, hct, hsp, rfl, rfl⟩
              have hsub : get_available_spaces gs held ⊆ gs.spaces := by
                intro x hx
                exact List.mem_of_mem_filter hx
              rw [← hsp]
              exact hsub hmem

end BookingSpecLemmas

/-- C10: reservation field invariants at creation, for both booking paths.
Simulated path: every reservation returned by `run_auto_booking` is ACTIVE,
flagged simulated, starts at the garage's current time, lasts an integer 1-4
hours, is booked on one of the garage's spaces, locks the `final_price`
computed by `calculate_price` at selection time (a garage state at the same
current time over the same spaces), and has `total_cost = round(price_locked *
duration, 2)`.  Manual path: a reservation created by the book-spot handler
starts at the garage's current time, ends `duration` later, locks the hold's
price (itself the `calculate_price` result at hold time), has `total_cost =
round(price_locked * duration, 2)`, is ACTIVE, and is not flagged simulated. -/
theorem C10_reservation_creation_invariants :
    (∀ (gs : GarageState) (held : List String) (o : Oracle) (k : ℕ),
      ∀ r ∈ (run_auto_booking gs held o k).1, SimBookingSpec gs.spaces gs.current_time r) ∧
    (∀ (gs : GarageState) (space_id : String) (hold : Hold) (d : ℚ) (rid : String)
        (gs2 : GarageState) (r : Reservation),
      handle_book_spot_core gs space_id hold d rid = some (gs2, r) →
        r.start_time = gs.current_time ∧ r.end_time = gs.current_time + d ∧
        r.price_locked = hold.price_result.final_price ∧
        r.total_cost = pyRound 2 (r.price_locked * d) ∧
        r.status = ReservationStatus.ACTIVE ∧ r.is_simulated = false ∧
        gs2.reservations = gs.reservations ++ [r]) ∧
    (∀ (gs0 : GarageState) (space : Space) (ws : String) (expiry : ℚ),
      (handle_select_spot_hold gs0 space ws expiry).price_result =
        calculate_price space gs0.current_time gs0
          (some ((garage_config.game_hour : ℚ) - gs0.current_time))) := by
  refine ⟨?_, ?_, fun _ _ _ _ => rfl⟩
  · intro gs held o k r hr
    rw [run_auto_booking] at hr
    by_cases hav : get_available_spaces gs held = []
    · rw [if_pos hav] at hr
      simp at hr
    · rw [if_neg hav] at hr
      exact bookingAttempts_spec gs.current_time simEndTime
        (get_target_occupancy gs.current_time) (get_demand_factor gs.current_time)
        gs.spaces gs.spaces.length held o _ gs k [] rfl rfl (by simp) r hr
  · intro gs space_id hold d rid gs2 r h
    rw [handle_book_spot_core] at h
    split_ifs at h with hd
    simp only [Option.some.injEq, Prod.mk.injEq] at h
    obtain ⟨hgs2, hr⟩ := h
    subst hr
    subst hgs2
    exact ⟨rfl, rfl, rfl, rfl, rfl, rfl, rfl⟩

/-- Witness for C10: the concrete simulated booking made at 06:00 in a
one-space garage, and a concrete manual booking. -/
theorem C10_witness :
    (∀ r ∈ (run_auto_booking gsOneSpace6 [] oracle0 0).1,
      SimBookingSpec gsOneSpace6.spaces gsOneSpace6.current_time r) ∧
    ∀ (gs2 : GarageState) (r : Reservation),
      handle_book_spot_core gsTwoSpaces "R5C5"
          (handle_select_spot_hold gsTwoSpaces spaceStdB "ws" 0) 2 "rid" =
        some (gs2, r) →
      r.price_locked =
        (calculate_price spaceStdB gsTwoSpaces.current_time gsTwoSpaces
          (some ((garage_config.game_hour : ℚ) - gsTwoSpaces.current_time))).final_price ∧
      r.total_cost = pyRound 2 (r.price_locked * 2) := by
  obtain ⟨hsim, hman, hsel⟩ := C10_reservation_creation_invariants
  refine ⟨fun r hr => hsim gsOneSpace6 [] oracle0 0 r hr, ?_⟩
  intro gs2 r h
  obtain ⟨-, -, hprice, hcost, -, -, -⟩ :=
    hman gsTwoSpaces "R5C5" (handle_select_spot_hold gsTwoSpaces spaceStdB "ws" 0)
      2 "rid" gs2 r h
  refine ⟨?_, hcost⟩
  rw [hprice, hsel]

/-- C5 failing input: at current_time 23.0 (a booking-capable time inside
the simulated day, before `sim_end = 23 + 59/60`), with an available space
and draws that trigger a booking, `run_auto_booking` creates a reservation
ending at 24.0 — past the end-of-day boundary.  `_select_duration`'s
fallback returns 1 hour whenever less than a full hour remains, contradicting
its own docstring ("Ensures the booking doesn't extend past the simulation
end time") and the claim. -/
theorem C5_booking_past_sim_end_failing_input :
    simEndTime = 23 + 59 / 60 ∧
    gsOneSpace23.current_time < simEndTime ∧
    (run_auto_booking gsOneSpace23 [] oracle0 0).1.map (fun r => r.end_time) = [24] ∧
    ¬((24 : ℚ) ≤ simEndTime) := by
  refine ⟨?_, ?_, ?_, ?_⟩
  · norm_num [simEndTime, garage_config]
  · norm_num [simEndTime, garage_config, gsOneSpace23]
  · with_unfolding_all rfl
  · norm_num [simEndTime, garage_config]

section NoDoubleBookingLemmas

lemma forall₂_mem_right {α β : Type} {R : α → β → Prop} :
    ∀ {l : List α} {l2 : List β}, List.Forall₂ R l l2 → ∀ b ∈ l2, ∃ a ∈ l, R a b := by
  intro l l2 h
  induction h with
  | nil => intro b hb; simp at hb
  | cons hR hF ih =>
    intro b hb
    rcases List.mem_cons.mp hb with h | h
    · subst h
      exact ⟨_, List.mem_cons_self _ _, hR⟩
    · obtain ⟨a, ha, haR⟩ := ih b h
      exact ⟨a, List.mem_cons_of_mem _ ha, haR⟩

lemma filter_length_le_of_forall₂ {α : Type} {R : α → α → Prop} {p : α → Bool}
    (himp : ∀ a b, R a b → p b = true → p a = true) :
    ∀ {l l2 : List α}, List.Forall₂ R l l2 →
      (l2.filter p).length ≤ (l.filter p).length := by
  intro l l2 h
  induction h with
  | nil => simp
  | @cons a b l1 l2 hR hF ih =>
    by_cases hb : p b = true
    · rw [List.filter_cons_of_pos hb, List.filter_cons_of_pos (himp a b hR hb)]
      simpa using ih
    · rw [List.filter_cons_of_neg (by simpa using hb)]
      refine le_trans ih ?_
      by_cases ha : p a = true
      · rw [List.filter_cons_of_pos ha]
        exact Nat.le_succ _
      · rw [List.filter_cons_of_neg (by simpa using ha)]

/-- A space offered as available has no ACTIVE reservation covering the
current time. -/
lemma available_not_covering {gs : GarageState} {held : List String} {space : Space}
    (h : space ∈ get_available_spaces gs held) :
    ∀ r ∈ gs.reservations, r.status = ReservationStatus.ACTIVE →
      r.start_time ≤ gs.current_time → gs.current_time < r.end_time →
      r.space_id ≠ space.id := by
  intro r hr hact hst hend hEq
  simp only [get_available_spaces] at h
  have h2 := of_decide_eq_true (List.mem_filter.mp h).2
  apply h2.1
  apply List.mem_map.mpr
  refine ⟨r, List.mem_filter.mpr ⟨hr, decide_eq_true ⟨hact, hst, hend⟩⟩, hEq⟩

/-- Appending a fresh booking for a space with no ACTIVE covering reservation
preserves the invariant. -/
lemma invariant_append {gs : GarageState} {resv : Reservation}
    (hNo : NoDoubleBooking gs) (hSB : StartsBeforeNow gs)
    (hst : resv.start_time = gs.current_time)
    (hend : gs.current_time < resv.end_time)
    (hspace : ∀ r ∈ gs.reservations, r.status = ReservationStatus.ACTIVE →
      r.start_time ≤ gs.current_time → gs.current_time < r.end_time →
      r.space_id ≠ resv.space_id) :
    NoDoubleBooking { gs with reservations := gs.reservations ++ [resv] } ∧
    StartsBeforeNow { gs with reservations := gs.reservations ++ [resv] } := by
  constructor
  · intro sid t
    show ((gs.reservations ++ [resv]).filter _).length ≤ 1
    rw [List.filter_append, List.length_append]
    by_cases hp : (decide (resv.status = ReservationStatus.ACTIVE ∧ resv.space_id = sid ∧
        resv.start_time ≤ t ∧ t < resv.end_time)) = true
    · obtain ⟨hact, hsid, hts, htl⟩ := of_decide_eq_true hp
      have hnil : gs.reservations.filter (fun r =>
          decide (r.status = ReservationStatus.ACTIVE ∧ r.space_id = sid ∧
            r.start_time ≤ t ∧ t < r.end_time)) = [] := by
        rw [List.filter_eq_nil]
        intro r hr hpr
        obtain ⟨hact2, hsid2, hts2, htl2⟩ := of_decide_eq_true hpr
        have hstart2 : r.start_time ≤ gs.current_time := hSB r hr
        by_cases hcov : gs.current_time < r.end_time
        · exact hspace r hr hact2 hstart2 hcov (hsid2.trans hsid.symm)
        · have hct_le_t : gs.current_time ≤ t := hst ▸ hts
          exact absurd htl2 (not_lt.mpr (le_trans (not_lt.mp hcov) hct_le_t))
      rw [hnil]
      simp [List.filter, hp]
    · have : ([resv].filter (fun r =>
          decide (r.status = ReservationStatus.ACTIVE ∧ r.space_id = sid ∧
            r.start_time ≤ t ∧ t < r.end_time))).length = 0 := by
        simp [List.filter, hp]
      rw [this]
      simpa using hNo sid t
  · intro r hr
    rcases List.mem_append.mp hr with h | h
    · exact hSB r h
    · have : r = resv := by simpa using h
      subst this
      exact le_of_eq hst

/-- Auto-clearing preserves the invariant (it only retires reservations). -/
lemma clearing_preserves (gs : GarageState) (o : Oracle) (k : ℕ) (hG : GoodState gs) :
    GoodState (run_auto_clearing gs o k).1 ∧
    (run_auto_clearing gs o k).1.current_time = gs.current_time := by
  rw [run_auto_clearing_eq]
  obtain ⟨hF, -⟩ := clearLoop_spec gs.current_time (clearingDepartureRate gs.current_time)
    o gs.reservations k
  refine ⟨⟨?_, ?_⟩, rfl⟩
  · intro sid t
    refine le_trans (filter_length_le_of_forall₂ ?_ hF) (hG.1 sid t)
    intro a b hR hpb
    rcases hR.1 with h | ⟨-, h⟩
    · rw [← h]
      exact hpb
    · subst h
      have := of_decide_eq_true hpb
      simp at this
  · intro r hr
    obtain ⟨a, ha, haR⟩ := forall₂_mem_right hF r hr
    have hstart : r.start_time = a.start_time := by
      rcases haR.1 with h | ⟨-, h⟩ <;> subst h <;> rfl
    rw [hstart]
    exact hG.2 a ha

/-- The booking burst loop preserves the invariant. -/
lemma bookingAttempts_preserves (ct sim_end target demand : ℚ) (total : ℕ)
    (held : List String) (o : Oracle) :
    ∀ (fuel : ℕ) (gs : GarageState) (k : ℕ) (acc : List Reservation),
      gs.current_time = ct → GoodState gs →
      GoodState (bookingAttempts ct sim_end total target demand held o fuel gs k acc).2.1 ∧
      (bookingAttempts ct sim_end total target demand held o
        fuel gs k acc).2.1.current_time = ct := by
  intro fuel
  induction fuel with
  | zero =>
    intro gs k acc hct hG
    exact ⟨hG, hct⟩
  | succ n ih =>
    intro gs k acc hct hG
    rw [bookingAttempts]
    by_cases hav : get_available_spaces gs held = []
    · rw [if_pos hav]
      exact ⟨hG, hct⟩
    · rw [if_neg hav]
      by_cases hdraw : bookingProbability ct
          (1 - ((get_available_spaces gs held).length : ℚ) / (total : ℚ))
          (target - (1 - ((get_available_spaces gs held).length : ℚ) / (total : ℚ)))
          demand < o.unif k
      · rw [if_pos hdraw]
        exact ih gs (k + 1) acc hct hG
      · rw [if_neg hdraw]
        rcases hsel : select_weighted_space (get_available_spaces gs held) gs o (k + 1)
          with ⟨os, k2⟩
        cases os with
        | none => exact ih gs k2 acc hct hG
        | some space =>
          have hmem : space ∈ get_available_spaces gs held :=
            select_weighted_space_mem (by rw [hsel])
          have hd1 : (1 : ℤ) ≤ (chooseBookingDuration ct sim_end o k2).1 :=
            (chooseBookingDuration_bounds ct sim_end o k2).1
          have hd1q : (1 : ℚ) ≤ ((chooseBookingDuration ct sim_end o k2).1 : ℚ) := by
            exact_mod_cast hd1
          have hGnext : GoodState { gs with reservations := gs.reservations ++
              [mkSimReservation ct space (calculate_price space ct gs)
                (chooseBookingDuration ct sim_end o k2).1
                (o.fresh (chooseBookingDuration ct sim_end o k2).2)] } := by
            refine invariant_append hG.1 hG.2 ?_ ?_ ?_
            · exact hct.symm
            · show gs.current_time < ct + ((chooseBookingDuration ct sim_end o k2).1 : ℚ)
              rw [hct]
              linarith
            · intro r hr hact hstt hcov
              exact available_not_covering hmem r hr hact hstt hcov
          exact ih
            (add_event
              { gs with reservations := gs.reservations ++
                  [mkSimReservation ct space (calculate_price space ct gs)
                    (chooseBookingDuration ct sim_end o k2).1
                    (o.fresh (chooseBookingDuration ct sim_end o k2).2)] }
              "sim_booking"
              ("Auto-booked " ++ space.id ++ " (" ++ space.type.value ++ ") for "
                ++ toString (chooseBookingDuration ct sim_end o k2).1 ++ "hr at $"
                ++ fmtFixed (calculate_price space ct gs).final_price 2 ++ "/hr"))
            (chooseBookingDuration ct sim_end o k2).2
            (acc ++
              [mkSimReservation ct space (calculate_price space ct gs)
                (chooseBookingDuration ct sim_end o k2).1
                (o.fresh (chooseBookingDuration ct sim_end o k2).2)])
            hct hGnext

/-- `run_auto_booking` preserves the invariant. -/
lemma run_auto_booking_preserves (gs : GarageState) (held : List String) (o : Oracle)
    (k : ℕ) (hG : GoodState gs) :
    GoodState (run_auto_booking gs held o k).2.1 ∧
    (run_auto_booking gs held o k).2.1.current_time = gs.current_time := by
  rw [run_auto_booking]
  by_cases hav : get_available_spaces gs held = []
  · rw [if_pos hav]
    exact ⟨hG, rfl⟩
  · rw [if_neg hav]
    exact bookingAttempts_preserves gs.current_time simEndTime
      (get_target_occupancy gs.current_time) (get_demand_factor gs.current_time)
      gs.spaces.length held o _ gs k [] rfl hG

/-- One simulation tick preserves the invariant. -/
lemma tick_preserves (gs : GarageState) (held : List String) (o : Oracle) (k : ℕ)
    (hG : GoodState gs) : GoodState (run_simulation_tick gs held o k).1 := by
  have hstate : (run_simulation_tick gs held o k).1 =
      (run_auto_booking (run_auto_clearing gs o k).1 held o
        (run_auto_clearing gs o k).2.2).2.1 := rfl
  rw [hstate]
  obtain ⟨hG1, -⟩ := clearing_preserves gs o k hG
  exact (run_auto_booking_preserves _ held o _ hG1).1

end NoDoubleBookingLemmas

/-- C2: in every garage state reachable from an initialized garage (no
reservations) by forward time advancement and simulation ticks with arbitrary
held-id sets and random draws, for every space and every instant at most one
ACTIVE reservation for that space has a `[start_time, end_time)` interval
containing that instant: auto-booking only selects spaces from the available
set, which excludes spaces with an ACTIVE reservation covering the current
time, all bookings start at the current time, and time only moves forward. -/
theorem C2_no_double_booking (gs : GarageState) (h : SimReachable gs) :
    NoDoubleBooking gs := by
  suffices hG : GoodState gs from hG.1
  induction h with
  | start gs hres =>
    constructor
    · intro sid t
      rw [hres]
      simp
    · intro r hr
      rw [hres] at hr
      simp at hr
  | advance gs t hreach hle ih =>
    refine ⟨fun sid u => ih.1 sid u, ?_⟩
    intro r hr
    exact le_trans (ih.2 r hr) hle
  | tick gs held o k hreach ih =>
    exact tick_preserves gs held o k ih

/-- Witness for C2: the state after one tick (which books a space) of a
one-space garage that starts empty. -/
theorem C2_witness :
    NoDoubleBooking (run_simulation_tick gsOneSpace6 [] oracle0 0).1 :=
  C2_no_double_booking _
    (SimReachable.tick gsOneSpace6 [] oracle0 0 (SimReachable.start gsOneSpace6 rfl))

end ParkingGarage
